import Mathlib

/-!
Verification development for the `ai-dataset-preprocessor` server
(`src/server.js`).  JavaScript strings are modelled as `List Char`
(sequences of code points); JSON numbers are carried as their source
lexeme, since IEEE floating-point canonicalisation is out of scope for
this embedding.  Each definition is a direct translation of the named
function or route in `server.js`.
-/

namespace ADP

/-- The double-quote character, written via its code point. -/
def quoteChar : Char := Char.ofNat 34

/-- Whitespace predicate used by JavaScript `String.prototype.trim`. -/
def isWsChar (c : Char) : Bool := c.isWhitespace

/-- JavaScript `s.trim()`: strip leading and trailing whitespace. -/
def trimChars (cs : List Char) : List Char :=
  ((cs.dropWhile isWsChar).reverse.dropWhile isWsChar).reverse

/-- JavaScript `s.split('\n')`: always returns at least one piece. -/
def splitNl : List Char → List (List Char)
  | [] => [[]]
  | c :: cs =>
    if c = '\n' then [] :: splitNl cs
    else
      match splitNl cs with
      | l :: ls => (c :: l) :: ls
      | [] => [[c]]

/-- JavaScript `lines.join('\n')`. -/
def joinNl : List (List Char) → List Char
  | [] => []
  | [l] => l
  | l :: ls => l ++ '\n' :: joinNl ls

/-- JavaScript `values.join(',')`. -/
def joinComma : List (List Char) → List Char
  | [] => []
  | [v] => v
  | v :: vs => v ++ ',' :: joinComma vs

/-! ## CSV parsing (`parseCSVLine`, `parseCSV` in server.js) -/

/-- The scanner state of `parseCSVLine`: completed fields, the field
being accumulated, and whether the scan is inside double quotes. -/
structure LineState where
  result : List (List Char)
  current : List Char
  inQuotes : Bool
  deriving Repr, DecidableEq

/-- One character step of `parseCSVLine`: a double quote toggles the
in-quotes flag, an unquoted comma ends the current field, and any other
character is appended to the current field. -/
def csvStep (st : LineState) (c : Char) : LineState :=
  if c = quoteChar then
    { st with inQuotes := !st.inQuotes }
  else if c = ',' ∧ st.inQuotes = false then
    { result := st.result ++ [st.current], current := [], inQuotes := false }
  else
    { st with current := st.current ++ [c] }

/-- `parseCSVLine(line)` from server.js. -/
def parseCSVLine (line : List Char) : List (List Char) :=
  let st := line.foldl csvStep ⟨[], [], false⟩
  st.result ++ [st.current]

/-- A parsed CSV record: keys and values in insertion order. -/
abbrev Row : Type := List (List Char × List Char)

/-- JavaScript object property assignment `obj[k] = v`: overwrite in
place when the key exists, otherwise append. -/
def objSet (row : List (List Char × α)) (k : List Char) (v : α) :
    List (List Char × α) :=
  if row.any (fun p => p.1 = k) then
    row.map (fun p => if p.1 = k then (k, v) else p)
  else
    row ++ [(k, v)]

/-- The body of the row loop in `parseCSV`:
`headers.forEach((header, index) => row[header.trim()] = values[index]?.trim() || '')`. -/
def buildRow (headers vals : List (List Char)) : Row :=
  headers.enum.foldl
    (fun row iv => objSet row (trimChars iv.2) (trimChars (vals.getD iv.1 [])))
    []

/-- `parseCSV(content)` from server.js. -/
def parseCSV (content : List Char) : List Row :=
  match splitNl (trimChars content) with
  | [] => []
  | header :: dataLines =>
    let headers := parseCSVLine header
    dataLines.map (fun line => buildRow headers (parseCSVLine line))

/-! ## JavaScript values (JSON)

`JSON.parse` results and request payloads are modelled by `JsonValue`.
Numbers keep their source lexeme: no IEEE semantics are embedded. -/

inductive JsonValue where
  | null
  | bool (b : Bool)
  | num (lexeme : List Char)
  | str (s : List Char)
  | arr (elems : List JsonValue)
  | obj (fields : List (List Char × JsonValue))

/-- JavaScript truthiness test (`!v` is `jsFalsy v`).  A number is falsy
when it denotes zero: every mantissa digit of the lexeme is `0`
(floating-point underflow of tiny exponents is out of scope). -/
def jsFalsy : JsonValue → Bool
  | .null => true
  | .bool b => !b
  | .str s => s.isEmpty
  | .num l => (l.takeWhile (fun c => c ≠ 'e' ∧ c ≠ 'E')).all
      (fun c => !c.isDigit || c = '0')
  | .arr _ => false
  | .obj _ => false

mutual

/-- JavaScript `String(v)` on a `JsonValue`. -/
def jsStringOf : JsonValue → List Char
  | .null => "null".data
  | .bool true => "true".data
  | .bool false => "false".data
  | .num l => l
  | .str s => s
  | .arr xs => jsArrJoin xs
  | .obj _ => "[object Object]".data

/-- `Array.prototype.toString`: elements joined with commas, with
`null` elements rendered as the empty string. -/
def jsArrJoin : List JsonValue → List Char
  | [] => []
  | [JsonValue.null] => []
  | [v] => jsStringOf v
  | JsonValue.null :: vs => ',' :: jsArrJoin vs
  | v :: vs => jsStringOf v ++ ',' :: jsArrJoin vs

end

/-! ## JSON parser (`JSON.parse`) -/

/-- Skip JSON insignificant whitespace. -/
def skipJWs : List Char → List Char
  | [] => []
  | c :: cs =>
    if c = ' ' ∨ c = '\t' ∨ c = '\n' ∨ c = '\r' then skipJWs cs else c :: cs

/-- Value of a hexadecimal digit. -/
def hexVal (c : Char) : Option Nat :=
  if '0' ≤ c ∧ c ≤ '9' then some (c.toNat - '0'.toNat)
  else if 'a' ≤ c ∧ c ≤ 'f' then some (c.toNat - 'a'.toNat + 10)
  else if 'A' ≤ c ∧ c ≤ 'F' then some (c.toNat - 'A'.toNat + 10)
  else none

/-- Parse the body of a JSON string, the opening quote already
consumed; returns the decoded contents and the remaining input. -/
def parseJString : List Char → Option (List Char × List Char)
  | [] => none
  | c :: cs =>
    if c = quoteChar then some ([], cs)
    else if c = '\\' then
      match cs with
      | [] => none
      | e :: cs2 =>
        if e = 'u' then
          match cs2 with
          | h1 :: h2 :: h3 :: h4 :: cs3 =>
            match hexVal h1, hexVal h2, hexVal h3, hexVal h4 with
            | some a, some b, some d, some f =>
              (parseJString cs3).map
                (fun r => (Char.ofNat (((a * 16 + b) * 16 + d) * 16 + f) :: r.1, r.2))
            | _, _, _, _ => none
          | _ => none
        else
          match
            (if e = quoteChar then some quoteChar
             else if e = '\\' then some '\\'
             else if e = '/' then some '/'
             else if e = 'b' then some (Char.ofNat 8)
             else if e = 'f' then some (Char.ofNat 12)
             else if e = 'n' then some '\n'
             else if e = 'r' then some '\r'
             else if e = 't' then some '\t'
             else none) with
          | some d => (parseJString cs2).map (fun r => (d :: r.1, r.2))
          | none => none
    else if c.toNat < 32 then none
    else (parseJString cs).map (fun r => (c :: r.1, r.2))

/-- Parse a JSON number lexeme (`-? int frac? exp?`); returns the
lexeme and the remaining input. -/
def parseJNumber (cs : List Char) : Option (List Char × List Char) :=
  let (sign, cs1) :=
    match cs with
    | '-' :: r => (['-'], r)
    | _ => (([] : List Char), cs)
  match cs1 with
  | [] => none
  | c :: r =>
    if ¬c.isDigit then none
    else
      let (intPart, rest1) :=
        if c = '0' then ([c], r)
        else (c :: r.takeWhile Char.isDigit, r.dropWhile Char.isDigit)
      let (fracPart, rest2) :=
        match rest1 with
        | '.' :: d :: r2 =>
          if d.isDigit then
            ('.' :: d :: r2.takeWhile Char.isDigit, r2.dropWhile Char.isDigit)
          else (([] : List Char), rest1)
        | _ => (([] : List Char), rest1)
      if fracPart.isEmpty && (match rest1 with | '.' :: _ => true | _ => false) then
        none
      else
        let (expPart, rest3) :=
          match rest2 with
          | e :: r2 =>
            if e = 'e' ∨ e = 'E' then
              let (sgn, r3) :=
                match r2 with
                | s :: r4 => if s = '+' ∨ s = '-' then ([s], r4) else (([] : List Char), r2)
                | [] => (([] : List Char), r2)
              match r3 with
              | d :: _ =>
                if d.isDigit then
                  (e :: sgn ++ r3.takeWhile Char.isDigit, r3.dropWhile Char.isDigit)
                else (([] : List Char), rest2)
              | [] => (([] : List Char), rest2)
            else (([] : List Char), rest2)
          | [] => (([] : List Char), rest2)
        if expPart.isEmpty && (match rest2 with | e :: _ => e == 'e' || e == 'E' | [] => false) then
          none
        else
          some (sign ++ intPart ++ fracPart ++ expPart, rest3)

mutual

/-- Fueled parser for a JSON value; leading whitespace already skipped. -/
def parseJValue : Nat → List Char → Option (JsonValue × List Char)
  | 0, _ => none
  | fuel + 1, cs =>
    match cs with
    | [] => none
    | c :: rest =>
      if c = quoteChar then
        (parseJString rest).map (fun r => (.str r.1, r.2))
      else if c = '[' then parseJArr fuel (skipJWs rest)
      else if c = '{' then parseJObj fuel (skipJWs rest)
      else
        match cs with
        | 't' :: 'r' :: 'u' :: 'e' :: r => some (.bool true, r)
        | 'f' :: 'a' :: 'l' :: 's' :: 'e' :: r => some (.bool false, r)
        | 'n' :: 'u' :: 'l' :: 'l' :: r => some (.null, r)
        | _ => (parseJNumber cs).map (fun r => (.num r.1, r.2))

/-- Array elements after `[` and whitespace. -/
def parseJArr : Nat → List Char → Option (JsonValue × List Char)
  | 0, _ => none
  | fuel + 1, cs =>
    match cs with
    | ']' :: rest => some (.arr [], rest)
    | _ => parseJArrElems fuel cs []

/-- Remaining array elements; `acc` holds those already parsed. -/
def parseJArrElems : Nat → List Char → List JsonValue → Option (JsonValue × List Char)
  | 0, _, _ => none
  | fuel + 1, cs, acc =>
    match parseJValue fuel (skipJWs cs) with
    | none => none
    | some (v, rest) =>
      match skipJWs rest with
      | ',' :: rest2 => parseJArrElems fuel rest2 (acc ++ [v])
      | ']' :: rest2 => some (.arr (acc ++ [v]), rest2)
      | _ => none

/-- Object members after `{` and whitespace. -/
def parseJObj : Nat → List Char → Option (JsonValue × List Char)
  | 0, _ => none
  | fuel + 1, cs =>
    match cs with
    | '}' :: rest => some (.obj [], rest)
    | _ => parseJObjMembers fuel cs []

/-- Remaining object members; duplicate keys overwrite in place as in
JavaScript objects. -/
def parseJObjMembers : Nat → List Char → List (List Char × JsonValue) →
    Option (JsonValue × List Char)
  | 0, _, _ => none
  | fuel + 1, cs, acc =>
    match skipJWs cs with
    | c :: rest =>
      if c = quoteChar then
        match parseJString rest with
        | none => none
        | some (key, rest1) =>
          match skipJWs rest1 with
          | ':' :: rest2 =>
            match parseJValue fuel (skipJWs rest2) with
            | none => none
            | some (v, rest3) =>
              match skipJWs rest3 with
              | ',' :: rest4 => parseJObjMembers fuel rest4 (objSet acc key v)
              | '}' :: rest4 => some (.obj (objSet acc key v), rest4)
              | _ => none
          | _ => none
      else none
    | [] => none

end

/-- `JSON.parse(s)`, as an `Option`: `none` models the thrown
`SyntaxError`. -/
def jsonParse (cs : List Char) : Option JsonValue :=
  match parseJValue (cs.length + 1) (skipJWs cs) with
  | some (v, rest) => if skipJWs rest = [] then some v else none
  | none => none

/-! ## CSV serialisation (`dataToCSV` in server.js) -/

/-- A record handed to `dataToCSV`: JavaScript object fields in
insertion order. -/
abbrev CsvRow : Type := List (List Char × JsonValue)

/-- JavaScript property lookup `row[h]`: first matching key, `none`
models `undefined`. -/
def assocFind (row : List (List Char × α)) (k : List Char) : Option α :=
  match row with
  | [] => none
  | (k', v) :: rest => if k' = k then some v else assocFind rest k

/-- `row[h] || ''`: an absent or falsy value is replaced by `''`. -/
def jsOrEmptyStr (v : Option JsonValue) : JsonValue :=
  match v with
  | none => .str []
  | some v => if jsFalsy v then .str [] else v

/-- Does the stringified value need CSV quoting
(`val.includes(',') || val.includes('"') || val.includes('\n')`)? -/
def needsQuote (v : List Char) : Bool :=
  v.contains ',' || v.contains quoteChar || v.contains '\n'

/-- `val.replace(/"/g, '""')`: double every internal double quote. -/
def escQuotes : List Char → List Char
  | [] => []
  | c :: cs =>
    if c = quoteChar then quoteChar :: quoteChar :: escQuotes cs
    else c :: escQuotes cs

/-- The per-value escaping of `dataToCSV`. -/
def csvEscape (v : List Char) : List Char :=
  if needsQuote v then quoteChar :: escQuotes v ++ [quoteChar] else v

/-- The string written by `dataToCSV` for one cell:
`String(row[h] || '')`, escaped. -/
def cellString (row : CsvRow) (h : List Char) : List Char :=
  csvEscape (jsStringOf (jsOrEmptyStr (assocFind row h)))

/-- `dataToCSV(data)` from server.js, on an array of records. -/
def dataToCSV (rows : List CsvRow) : List Char :=
  match rows with
  | [] => []
  | r0 :: _ =>
    let headers := r0.map (fun p => p.1)
    joinNl (joinComma headers ::
      rows.map (fun row => joinComma (headers.map (fun h => cellString row h))))

/-- The records produced by `parseCSV`, as JavaScript objects with
string-valued fields (the shape `/api/export` receives back). -/
def toJsRows (rs : List Row) : List CsvRow :=
  rs.map (fun r => r.map (fun kv => (kv.1, JsonValue.str kv.2)))

/-! ## AI gateway: retry loop

All three upstream call sites (`/api/process` lines 186-204,
`/api/train` lines 372-389, `/api/predict` lines 500-517) run the same
`while (retries > 0)` loop and differ only in the predicate deciding
whether a caught error is retried. -/

/-- Outcome of one `model.generateContent` attempt. -/
inductive Outcome where
  | success (text : List Char)
  | failure (msg : List Char)

instance : DecidableEq (Except (List Char) (List Char)) := fun a b =>
  match a, b with
  | .ok x, .ok y => decidable_of_iff (x = y) (by simp)
  | .error x, .error y => decidable_of_iff (x = y) (by simp)
  | .ok _, .error _ => isFalse (by simp)
  | .error _, .ok _ => isFalse (by simp)

/-- Result of the retry loop: the final outcome, how many attempts
were made, and the backoff waits (in milliseconds) performed. -/
structure RetryResult where
  outcome : Except (List Char) (List Char)
  attemptsMade : Nat
  backoffsMs : List Nat
  deriving Repr, DecidableEq

/-- Does a message contain `'quota'` (`retryError.message.includes('quota')`)? -/
def quotaMsg (m : List Char) : Bool :=
  let q := "quota".data
  (List.range (m.length + 1)).any (fun i => q.isPrefixOf (m.drop i))

/-- The `while (retries > 0)` loop shared by the three routes.  The
first argument decides whether a caught error is retried (on top of
`retries > 0` after the decrement); `attempt i` is the outcome of the
i-th upstream call. -/
def retryLoop (shouldRetry : List Char → Bool) (attempt : Nat → Outcome) :
    Nat → Nat → List Nat → RetryResult
  | 0, made, waits => ⟨.error [], made, waits⟩
  | r + 1, made, waits =>
    match attempt made with
    | .success t => ⟨.ok t, made + 1, waits⟩
    | .failure m =>
      if shouldRetry m = true ∧ 0 < r then
        retryLoop shouldRetry attempt r (made + 1) (waits ++ [2000])
      else
        ⟨.error m, made + 1, waits⟩

/-- The `/api/process` retry loop: only quota errors are retried. -/
def processRetry (attempt : Nat → Outcome) : RetryResult :=
  retryLoop quotaMsg attempt 3 0 []

/-- The `/api/train` retry loop: every error is retried. -/
def trainRetry (attempt : Nat → Outcome) : RetryResult :=
  retryLoop (fun _ => true) attempt 3 0 []

/-- The `/api/predict` retry loop: every error is retried. -/
def predictRetry (attempt : Nat → Outcome) : RetryResult :=
  retryLoop (fun _ => true) attempt 3 0 []

/-! ## AI gateway: JSON recovery from the reply text -/

/-- Index of the last occurrence of `c`. -/
def lastPos (c : Char) : List Char → Option Nat
  | [] => none
  | a :: rest =>
    match lastPos c rest with
    | some j => some (j + 1)
    | none => if a = c then some 0 else none

/-- The inclusive slice from index `i` to index `j`. -/
def sliceTo (cs : List Char) (i j : Nat) : List Char :=
  (cs.drop i).take (j + 1 - i)

/-- Is there an occurrence of `c` strictly after index `i`? -/
def occursAfter (c : Char) (full : List Char) (i : Nat) : Bool :=
  match lastPos c full with
  | some j => i < j
  | none => false

/-- Scanner for `responseText.match(/\[[\s\S]*\]|\{[\s\S]*\}/)` (and,
with `useBrackets = false`, for `/\{[\s\S]*\}/`): at the leftmost
viable start, the greedy body extends to the last closing delimiter. -/
def scanMatchAux (full : List Char) (useBrackets : Bool) :
    Nat → List Char → Option (List Char)
  | _, [] => none
  | i, c :: rest =>
    if useBrackets = true ∧ c = '[' ∧ occursAfter ']' full i then
      some (sliceTo full i ((lastPos ']' full).getD 0))
    else if c = '{' ∧ occursAfter '}' full i then
      some (sliceTo full i ((lastPos '}' full).getD 0))
    else
      scanMatchAux full useBrackets (i + 1) rest

/-- The `/api/process` extraction regex: first `[`-or-`{` block. -/
def jsonMatchProcess (t : List Char) : Option (List Char) :=
  scanMatchAux t true 0 t

/-- The `/api/train` and `/api/predict` extraction regex: braces only. -/
def braceMatch (t : List Char) : Option (List Char) :=
  scanMatchAux t false 0 t

/-- Result of the response-recovery chain.  `engineError` models a
`JSON.parse` exception on the extracted substring escaping to the
route's catch block; `notFound` models the route's own
`throw new Error(...)` when no substring was found. -/
inductive Recovered where
  | value (v : JsonValue)
  | engineError
  | notFound (msg : String)

/-- `/api/process` lines 209-222: direct parse, then bracket-or-brace
extraction, then wrap the text as `{ data: responseText }`. -/
def processRecover (t : List Char) : Recovered :=
  match jsonParse t with
  | some v => .value v
  | none =>
    match jsonMatchProcess t with
    | some sub =>
      match jsonParse sub with
      | some v => .value v
      | none => .engineError
    | none => .value (.obj [("data".data, .str t)])

/-- `/api/train` lines 394-404: direct parse, then brace extraction,
else a hard error. -/
def trainRecover (t : List Char) : Recovered :=
  match jsonParse t with
  | some v => .value v
  | none =>
    match braceMatch t with
    | some sub =>
      match jsonParse sub with
      | some v => .value v
      | none => .engineError
    | none => .notFound "Failed to parse training results"

/-- `/api/predict` lines 522-532: direct parse, then brace extraction,
else a hard error. -/
def predictRecover (t : List Char) : Recovered :=
  match jsonParse t with
  | some v => .value v
  | none =>
    match braceMatch t with
    | some sub =>
      match jsonParse sub with
      | some v => .value v
      | none => .engineError
    | none => .notFound "Failed to parse prediction"

/-! ## Route validation phases

Each phase models a route from the top of its handler to the point
where the upstream AI endpoint would be invoked: either an early
response (`reject status message`) or the upstream call (`upstream`).
The process-environment credential `GEMINI_API_KEY` is passed
explicitly (`none` models an unset variable). -/

/-- Either an early HTTP response or the decision to call upstream. -/
inductive Phase (α : Type) where
  | reject (status : Nat) (msg : String)
  | upstream (a : α)

/-- Does a phase reach the upstream AI call? -/
def phaseCallsUpstream : Phase α → Bool
  | .upstream _ => true
  | .reject _ _ => false

/-- JavaScript truthiness of a possibly absent value. -/
def jsTruthyOpt (v : Option JsonValue) : Bool :=
  match v with
  | none => false
  | some v => !jsFalsy v

/-- Truthiness of a possibly absent string field. -/
def strTruthy (v : Option (List Char)) : Bool :=
  match v with
  | none => false
  | some s => !s.isEmpty

/-- The registry value stored by `/api/train` (`trainedModels.set`);
the wall-clock `trainedAt` timestamp is elided. -/
structure ModelInfo where
  modelType : List Char
  targetColumn : List Char
  featureColumns : List (List Char)
  metrics : JsonValue

/-- The fail-fast credential test of `/api/process`:
`!process.env.GEMINI_API_KEY || process.env.GEMINI_API_KEY === 'your_gemini_api_key_here'`. -/
def badKey (apiKey : Option (List Char)) : Bool :=
  match apiKey with
  | none => true
  | some k => k.isEmpty || k = "your_gemini_api_key_here".data

/-- `/api/process` lines 143-151: field validation, then the fail-fast
credential check, then the upstream call. -/
def processPhase (apiKey : Option (List Char)) (data : Option JsonValue)
    (prompt : Option JsonValue) : Phase Unit :=
  if ¬(jsTruthyOpt data = true) ∨ ¬(jsTruthyOpt prompt = true) then
    .reject 400 "Data and prompt are required"
  else if badKey apiKey then
    .reject 400 "Please configure your Gemini API key in .env file"
  else
    .upstream ()

/-- `Object.keys(v)`: `none` models the `TypeError` thrown on
`null`/`undefined`; arrays and strings expose their index keys. -/
def jsObjectKeys : JsonValue → Option (List (List Char))
  | .null => none
  | .obj fs => some (fs.map (fun p => p.1))
  | .arr xs => some ((List.range xs.length).map (fun i => Nat.toDigits 10 i))
  | .str s => some ((List.range s.length).map (fun i => Nat.toDigits 10 i))
  | .num _ => some []
  | .bool _ => some []

/-- `/api/train` lines 284-300: field validation, the row-count check,
then feature-column extraction and the upstream call.  No credential
check exists on this route, so `apiKey` is never consulted.  The prompt
assembly between the checks and the upstream call is pure string and
number formatting and cannot reject, so it is elided. -/
def trainPhase (_apiKey : Option (List Char)) (data : Option JsonValue)
    (targetColumn : Option (List Char)) (modelType : Option (List Char)) :
    Phase (List (List Char)) :=
  if ¬(jsTruthyOpt data = true) ∨ ¬(strTruthy targetColumn = true) ∨
      ¬(strTruthy modelType = true) then
    .reject 400 "Data, target column, and model type are required"
  else
    match data with
    | some (.arr rows) =>
      if rows.length < 10 then
        .reject 400 "Need at least 10 rows of data for training"
      else
        match jsObjectKeys (rows.getD 0 .null) with
        | none => .reject 500 "Model training failed"
        | some allColumns =>
          .upstream (allColumns.filter (fun c => ¬(some c = targetColumn)))
    | _ => .reject 400 "Need at least 10 rows of data for training"

/-- `/api/predict` lines 466-477: field validation, then the registry
lookup; an unknown identifier is rejected with 404 before any upstream
call.  No credential check exists on this route either. -/
def predictPhase (_apiKey : Option (List Char))
    (registry : List (List Char × ModelInfo)) (modelId : Option (List Char))
    (inputData : Option JsonValue) : Phase ModelInfo :=
  if ¬(strTruthy modelId = true) ∨ ¬(jsTruthyOpt inputData = true) then
    .reject 400 "Model ID and input data are required"
  else
    match modelId with
    | none => .reject 400 "Model ID and input data are required"
    | some id =>
      match assocFind registry id with
      | none => .reject 404 "Model not found. Please train a model first."
      | some info => .upstream info

/-! ## File upload (`parseFileContent`, `/api/upload`) -/

/-- `path.extname(filename).toLowerCase()`: the lower-cased extension
of the final path segment, empty for dot-less or leading-dot names. -/
def extnameLower (filename : List Char) : List Char :=
  let base := (filename.reverse.takeWhile (fun c => c ≠ '/')).reverse
  let afterDot := base.reverse.takeWhile (fun c => c ≠ '.')
  if afterDot.length = base.length then
    []
  else if base.length - afterDot.length - 1 = 0 then
    []
  else
    ('.' :: afterDot.reverse).map Char.toLower

/-- The three dataset kinds produced by `parseFileContent`. -/
inductive FileType where
  | json
  | csv
  | text
  deriving Repr, DecidableEq

/-- The value returned by `parseFileContent`. -/
structure ParsedFile where
  type : FileType
  data : JsonValue
  raw : List Char

/-- A `parseCSV` record as the JavaScript object the route returns. -/
def rowToJson (r : Row) : JsonValue :=
  .obj (r.map (fun kv => (kv.1, .str kv.2)))

/-- `parseFileContent(buffer, filename)` from server.js: dispatch on
the extension, falling back to text when `JSON.parse` throws. -/
def parseFileContent (content filename : List Char) : ParsedFile :=
  let ext := extnameLower filename
  if ext = ".json".data then
    match jsonParse content with
    | some v => ⟨.json, v, content⟩
    | none => ⟨.text, .str content, content⟩
  else if ext = ".csv".data then
    ⟨.csv, .arr ((parseCSV content).map rowToJson), content⟩
  else
    ⟨.text, .str content, content⟩

/-- The JSON body answered by `/api/upload`. -/
structure UploadResponse where
  status : Nat
  filename : Option (List Char)
  type : Option FileType
  data : Option JsonValue
  preview : Option JsonValue

/-- `/api/upload` lines 119-138: reject a missing file with 400,
otherwise answer with the parsed data and its preview
(`Array.isArray(parsed.data) ? parsed.data.slice(0, 10) : parsed.data`). -/
def uploadRoute (file : Option (List Char × List Char)) : UploadResponse :=
  match file with
  | none => ⟨400, none, none, none, none⟩
  | some (name, content) =>
    let parsed := parseFileContent content name
    ⟨200, some name, some parsed.type, some parsed.data,
      some (match parsed.data with
            | .arr xs => .arr (xs.take 10)
            | d => d)⟩

/-! ## Claim-text serialiser variants (for claim C6)

Claim C6 describes `dataToCSV`; these two definitions follow the
claim's words (original and amended) so the code can be compared
against them. -/

/-- A cell as claim C6 words it: the value is stringified, with
empty/undefined becoming the empty string. -/
def claimCellC6 (v : Option JsonValue) : List Char :=
  match v with
  | none => []
  | some v => jsStringOf v

/-- `dataToCSV` as claim C6 describes it: headers from the first
record's keys, cells per `claimCellC6`, quoting per `csvEscape`. -/
def dataToCSV_claimC6 (rows : List CsvRow) : List Char :=
  match rows with
  | [] => []
  | r0 :: _ =>
    let headers := r0.map (fun p => p.1)
    joinNl (joinComma headers ::
      rows.map (fun row =>
        joinComma (headers.map (fun h => csvEscape (claimCellC6 (assocFind row h))))))

/-- A cell as the amended claim words it: any falsy value (undefined,
null, false, zero, the empty string) becomes the empty string, all
other values are stringified. -/
def amendedCellC6 (v : Option JsonValue) : List Char :=
  match v with
  | none => []
  | some v => if jsFalsy v then [] else jsStringOf v

/-- `dataToCSV` as the amended claim describes it. -/
def dataToCSV_amendedC6 (rows : List CsvRow) : List Char :=
  match rows with
  | [] => []
  | r0 :: _ =>
    let headers := r0.map (fun p => p.1)
    joinNl (joinComma headers ::
      rows.map (fun row =>
        joinComma (headers.map (fun h => csvEscape (amendedCellC6 (assocFind row h))))))

/-! ## Helper lemmas -/

/-- The retry loop makes at most `made + r` further attempts. -/
theorem retryLoop_attempts_le (P : List Char → Bool) (a : Nat → Outcome)
    (r made : Nat) (ws : List Nat) :
    (retryLoop P a r made ws).attemptsMade ≤ made + r := by
  induction r generalizing made ws with
  | zero => simp [retryLoop]
  | succ n ih =>
    simp only [retryLoop]
    cases a made with
    | success t => simp
    | failure m =>
      simp only
      split
      · have := ih (made + 1) (ws ++ [2000])
        omega
      · simp

/-- Every backoff recorded by the retry loop is 2000 ms. -/
theorem retryLoop_backoffs (P : List Char → Bool) (a : Nat → Outcome)
    (r made : Nat) (ws : List Nat) (hws : ∀ w ∈ ws, w = 2000) :
    ∀ w ∈ (retryLoop P a r made ws).backoffsMs, w = 2000 := by
  induction r generalizing made ws with
  | zero => simpa [retryLoop] using hws
  | succ n ih =>
    simp only [retryLoop]
    cases a made with
    | success t => simpa using hws
    | failure m =>
      simp only
      split
      · refine ih (made + 1) (ws ++ [2000]) ?_
        intro w hw
        rcases List.mem_append.mp hw with h | h
        · exact hws w h
        · simpa using h
      · simpa using hws

/-- `objSet` with a key absent from the row appends the binding. -/
theorem objSet_fresh (row : List (List Char × α)) (k : List Char) (v : α)
    (h : ∀ p ∈ row, p.1 ≠ k) : objSet row k v = row ++ [(k, v)] := by
  unfold objSet
  have hany : row.any (fun p => p.1 = k) = false := by
    rw [List.any_eq_false]
    intro p hp
    simpa using h p hp
  simp [hany]

/-- The row-building fold of `parseCSV`, with pairwise distinct trimmed
keys and a fresh accumulator, appends one binding per header. -/
theorem foldl_objSet_enum (l : List (Nat × List Char)) (vals : List (List Char))
    (acc : Row)
    (hfresh : ∀ iv ∈ l, ∀ p ∈ acc, p.1 ≠ trimChars iv.2)
    (hnd : (l.map (fun iv => trimChars iv.2)).Nodup) :
    l.foldl (fun row iv => objSet row (trimChars iv.2) (trimChars (vals.getD iv.1 []))) acc =
      acc ++ l.map (fun iv => (trimChars iv.2, trimChars (vals.getD iv.1 []))) := by
  induction l generalizing acc with
  | nil => simp
  | cons iv l ih =>
    rw [List.foldl_cons,
      objSet_fresh acc (trimChars iv.2) (trimChars (vals.getD iv.1 []))
        (fun p hp => hfresh iv (List.mem_cons_self iv l) p hp)]
    rw [List.map_cons] at hnd
    have hnd' := hnd.of_cons
    have hhead : trimChars iv.2 ∉ l.map (fun jv => trimChars jv.2) :=
      (List.nodup_cons.mp hnd).1
    rw [ih (acc ++ [(trimChars iv.2, trimChars (vals.getD iv.1 []))]) ?_ hnd']
    · simp
    · intro jv hjv p hp
      rcases List.mem_append.mp hp with h | h
      · exact hfresh jv (List.mem_cons_of_mem iv hjv) p h
      · have hp1 : p.1 = trimChars iv.2 := by
          rcases List.mem_singleton.mp h with rfl
          rfl
        rw [hp1]
        intro hcontra
        exact hhead (hcontra ▸ List.mem_map_of_mem (fun jv => trimChars jv.2) hjv)

/-- With pairwise distinct trimmed headers, a `parseCSV` record is the
positional list of (trimmed header, trimmed field), missing fields
defaulting to the empty field. -/
theorem buildRow_eq (headers vals : List (List Char))
    (hnd : (headers.map trimChars).Nodup) :
    buildRow headers vals =
      headers.enum.map (fun iv => (trimChars iv.2, trimChars (vals.getD iv.1 []))) := by
  have henum : headers.enum.map (fun iv => trimChars iv.2) = headers.map trimChars := by
    have := List.enum_map_snd headers
    calc headers.enum.map (fun iv => trimChars iv.2)
        = (headers.enum.map Prod.snd).map trimChars := by rw [List.map_map]; rfl
      _ = headers.map trimChars := by rw [this]
  unfold buildRow
  rw [foldl_objSet_enum headers.enum vals []
    (fun iv _ p hp => absurd hp (List.not_mem_nil p)) (henum ▸ hnd)]
  rfl

/-! ## Lemmas on trimming -/

theorem head_dropWhile_false (p : α → Bool) (l : List α) {c : α}
    (h : (l.dropWhile p).head? = some c) : p c = false := by
  induction l with
  | nil => simp [List.dropWhile] at h
  | cons a t ih =>
    by_cases hp : p a = true
    · rw [List.dropWhile_cons, if_pos hp] at h
      exact ih h
    · rw [List.dropWhile_cons, if_neg hp] at h
      simp only [List.head?_cons, Option.some.injEq] at h
      subst h
      simpa using hp

theorem dropWhile_eq_self_of_head (p : α → Bool) (l : List α)
    (h : ∀ c, l.head? = some c → p c = false) : l.dropWhile p = l := by
  cases l with
  | nil => rfl
  | cons a t =>
    have ha := h a rfl
    rw [List.dropWhile_cons, if_neg (by simp [ha])]

theorem getLast?_dropWhile (p : α → Bool) (y : List α)
    (h : y.dropWhile p ≠ []) : (y.dropWhile p).getLast? = y.getLast? := by
  induction y with
  | nil => simp [List.dropWhile] at h
  | cons a t ih =>
    by_cases hp : p a = true
    · rw [List.dropWhile_cons, if_pos hp] at h ⊢
      have ht : t ≠ [] := by
        intro he
        rw [he] at h
        simp [List.dropWhile] at h
      rw [ih h, show a :: t = [a] ++ t from rfl,
        List.getLast?_append_of_ne_nil [a] ht]
    · rw [List.dropWhile_cons, if_neg hp]

theorem trim_eq_self (t : List Char)
    (h1 : ∀ c, t.head? = some c → isWsChar c = false)
    (h2 : ∀ c, t.getLast? = some c → isWsChar c = false) :
    trimChars t = t := by
  unfold trimChars
  rw [dropWhile_eq_self_of_head _ _ h1,
    dropWhile_eq_self_of_head _ _
      (fun c hc => h2 c (by rwa [List.head?_reverse] at hc)),
    List.reverse_reverse]

theorem trim_head (w : List Char) :
    ∀ c, (trimChars w).head? = some c → isWsChar c = false := by
  intro c hc
  unfold trimChars at hc
  rw [List.head?_reverse] at hc
  have hne : (List.dropWhile isWsChar ((List.dropWhile isWsChar w).reverse)) ≠ [] := by
    intro he
    rw [he] at hc
    simp at hc
  rw [getLast?_dropWhile _ _ hne, List.getLast?_reverse] at hc
  exact head_dropWhile_false _ _ hc

theorem trim_last (w : List Char) :
    ∀ c, (trimChars w).getLast? = some c → isWsChar c = false := by
  intro c hc
  unfold trimChars at hc
  rw [List.getLast?_reverse] at hc
  exact head_dropWhile_false _ _ hc

theorem trim_idem (w : List Char) : trimChars (trimChars w) = trimChars w :=
  trim_eq_self _ (trim_head w) (trim_last w)

theorem mem_trim {c : Char} {w : List Char} (h : c ∈ trimChars w) : c ∈ w := by
  unfold trimChars at h
  rw [List.mem_reverse] at h
  have h1 := (List.dropWhile_sublist (l := (List.dropWhile isWsChar w).reverse)
    (p := isWsChar)).subset h
  rw [List.mem_reverse] at h1
  exact (List.dropWhile_sublist (l := w) (p := isWsChar)).subset h1

/-! ## Field invariants of `parseCSVLine` -/

theorem foldl_csvStep_pred (P : Char → Prop) (l : List Char) (st : LineState)
    (hl : ∀ c ∈ l, P c)
    (hres : ∀ f ∈ st.result, ∀ c ∈ f, P c)
    (hcur : ∀ c ∈ st.current, P c) :
    (∀ f ∈ (l.foldl csvStep st).result, ∀ c ∈ f, P c) ∧
    (∀ c ∈ (l.foldl csvStep st).current, P c) := by
  induction l generalizing st with
  | nil => exact ⟨hres, hcur⟩
  | cons a t ih =>
    rw [List.foldl_cons]
    refine ih (csvStep st a) (fun c hc => hl c (List.mem_cons_of_mem a hc)) ?_ ?_
    · intro f hf c hc
      unfold csvStep at hf
      split_ifs at hf
      · exact hres f hf c hc
      · rcases List.mem_append.mp hf with h1 | h1
        · exact hres f h1 c hc
        · rw [List.mem_singleton] at h1
          subst h1
          exact hcur c hc
      · exact hres f hf c hc
    · intro c hc
      unfold csvStep at hc
      split_ifs at hc
      · exact hcur c hc
      · simp at hc
      · rcases List.mem_append.mp hc with h1 | h1
        · exact hcur c h1
        · rw [List.mem_singleton] at h1
          subst h1
          exact hl _ (List.mem_cons_self _ _)

theorem parseCSVLine_chars (P : Char → Prop) (line : List Char)
    (hl : ∀ c ∈ line, P c) :
    ∀ f ∈ parseCSVLine line, ∀ c ∈ f, P c := by
  have h := foldl_csvStep_pred P line ⟨[], [], false⟩ hl (by simp) (by simp)
  intro f hf c hc
  unfold parseCSVLine at hf
  rcases List.mem_append.mp hf with h1 | h1
  · exact h.1 f h1 c hc
  · rw [List.mem_singleton] at h1
    subst h1
    exact h.2 c hc

theorem foldl_csvStep_noquote (l : List Char) (st : LineState)
    (hres : ∀ f ∈ st.result, quoteChar ∉ f)
    (hcur : quoteChar ∉ st.current) :
    (∀ f ∈ (l.foldl csvStep st).result, quoteChar ∉ f) ∧
    quoteChar ∉ (l.foldl csvStep st).current := by
  induction l generalizing st with
  | nil => exact ⟨hres, hcur⟩
  | cons a t ih =>
    rw [List.foldl_cons]
    refine ih (csvStep st a) ?_ ?_
    · intro f hf
      unfold csvStep at hf
      split_ifs at hf
      · exact hres f hf
      · rcases List.mem_append.mp hf with h1 | h1
        · exact hres f h1
        · rw [List.mem_singleton] at h1
          subst h1
          exact hcur
      · exact hres f hf
    · unfold csvStep
      split_ifs with h1 h2
      · exact hcur
      · simp
      · intro hc
        rcases List.mem_append.mp hc with h3 | h3
        · exact hcur h3
        · rw [List.mem_singleton] at h3
          exact h1 h3.symm

theorem parseCSVLine_noquote (line : List Char) :
    ∀ f ∈ parseCSVLine line, quoteChar ∉ f := by
  have h := foldl_csvStep_noquote line ⟨[], [], false⟩ (by simp) (by simp)
  intro f hf
  unfold parseCSVLine at hf
  rcases List.mem_append.mp hf with h1 | h1
  · exact h.1 f h1
  · rw [List.mem_singleton] at h1
    subst h1
    exact h.2

theorem parseCSVLine_ne_nil (line : List Char) : parseCSVLine line ≠ [] := by
  unfold parseCSVLine
  simp

/-! ## Splitting and joining lines -/

theorem splitNl_ne_nil (cs : List Char) : splitNl cs ≠ [] := by
  cases cs with
  | nil => simp [splitNl]
  | cons c t =>
    rw [splitNl]
    split_ifs
    · simp
    · cases h : splitNl t <;> simp

theorem splitNl_no_nl (cs : List Char) : ∀ l ∈ splitNl cs, '\n' ∉ l := by
  induction cs with
  | nil =>
    intro l hl
    rw [splitNl] at hl
    rw [List.mem_singleton] at hl
    subst hl
    simp
  | cons c t ih =>
    intro l hl
    rw [splitNl] at hl
    by_cases hc : c = '\n'
    · rw [if_pos hc] at hl
      rcases List.mem_cons.mp hl with h1 | h1
      · subst h1; simp
      · exact ih l h1
    · rw [if_neg hc] at hl
      cases hsp : splitNl t with
      | nil => exact absurd hsp (splitNl_ne_nil t)
      | cons x ls =>
        rw [hsp] at hl
        rcases List.mem_cons.mp hl with h1 | h1
        · subst h1
          intro hmem
          rcases List.mem_cons.mp hmem with h2 | h2
          · exact hc h2.symm
          · exact ih x (hsp ▸ List.mem_cons_self x ls) h2
        · exact ih l (hsp ▸ List.mem_cons_of_mem x h1)

theorem splitNl_chars (cs : List Char) : ∀ l ∈ splitNl cs, ∀ c ∈ l, c ∈ cs := by
  induction cs with
  | nil =>
    intro l hl c hc
    rw [splitNl, List.mem_singleton] at hl
    subst hl
    simp at hc
  | cons a t ih =>
    intro l hl c hc
    rw [splitNl] at hl
    by_cases ha : a = '\n'
    · rw [if_pos ha] at hl
      rcases List.mem_cons.mp hl with h1 | h1
      · subst h1; simp at hc
      · exact List.mem_cons_of_mem a (ih l h1 c hc)
    · rw [if_neg ha] at hl
      cases hsp : splitNl t with
      | nil => exact absurd hsp (splitNl_ne_nil t)
      | cons x ls =>
        rw [hsp] at hl
        rcases List.mem_cons.mp hl with h1 | h1
        · subst h1
          rcases List.mem_cons.mp hc with h2 | h2
          · subst h2; exact List.mem_cons_self c t
          · exact List.mem_cons_of_mem a
              (ih x (hsp ▸ List.mem_cons_self x ls) c h2)
        · exact List.mem_cons_of_mem a
            (ih l (hsp ▸ List.mem_cons_of_mem x h1) c hc)

theorem splitNl_single (l : List Char) (h : '\n' ∉ l) : splitNl l = [l] := by
  induction l with
  | nil => rfl
  | cons c t ih =>
    have hc : c ≠ '\n' := fun he => h (he ▸ List.mem_cons_self c t)
    rw [splitNl, if_neg hc, ih (fun hm => h (List.mem_cons_of_mem c hm))]

theorem splitNl_append_cons (l r : List Char) (h : '\n' ∉ l) :
    splitNl (l ++ '\n' :: r) = l :: splitNl r := by
  induction l with
  | nil =>
    rw [List.nil_append, splitNl, if_pos rfl]
  | cons c t ih =>
    have hc : c ≠ '\n' := fun he => h (he ▸ List.mem_cons_self c t)
    rw [List.cons_append, splitNl, if_neg hc,
      ih (fun hm => h (List.mem_cons_of_mem c hm))]

theorem splitNl_joinNl (ls : List (List Char)) (hne : ls ≠ [])
    (h : ∀ l ∈ ls, '\n' ∉ l) : splitNl (joinNl ls) = ls := by
  induction ls with
  | nil => exact absurd rfl hne
  | cons l ls ih =>
    cases ls with
    | nil => exact splitNl_single l (h l (List.mem_cons_self l []))
    | cons l2 ls2 =>
      show splitNl (l ++ '\n' :: joinNl (l2 :: ls2)) = l :: l2 :: ls2
      rw [splitNl_append_cons l _ (h l (List.mem_cons_self l _)),
        ih (by simp) (fun x hx => h x (List.mem_cons_of_mem l hx))]

/-! ## Scanning a serialised line recovers the fields -/

theorem foldl_csvStep_quoted (v : List Char) (hq : ∀ c ∈ v, c ≠ quoteChar)
    (res : List (List Char)) (cur : List Char) :
    v.foldl csvStep ⟨res, cur, true⟩ = ⟨res, cur ++ v, true⟩ := by
  induction v generalizing cur with
  | nil => simp
  | cons c cs ih =>
    have hc : c ≠ quoteChar := hq c (List.mem_cons_self c cs)
    have hstep : csvStep ⟨res, cur, true⟩ c = ⟨res, cur ++ [c], true⟩ := by
      simp [csvStep, hc]
    rw [List.foldl_cons, hstep,
      ih (fun d hd => hq d (List.mem_cons_of_mem c hd)) (cur ++ [c])]
    simp

theorem foldl_csvStep_unquoted (v : List Char)
    (hq : ∀ c ∈ v, c ≠ quoteChar) (hcm : ∀ c ∈ v, c ≠ ',')
    (res : List (List Char)) (cur : List Char) :
    v.foldl csvStep ⟨res, cur, false⟩ = ⟨res, cur ++ v, false⟩ := by
  induction v generalizing cur with
  | nil => simp
  | cons c cs ih =>
    have hc : c ≠ quoteChar := hq c (List.mem_cons_self c cs)
    have hc2 : c ≠ ',' := hcm c (List.mem_cons_self c cs)
    have hstep : csvStep ⟨res, cur, false⟩ c = ⟨res, cur ++ [c], false⟩ := by
      simp [csvStep, hc, hc2]
    rw [List.foldl_cons, hstep,
      ih (fun d hd => hq d (List.mem_cons_of_mem c hd))
        (fun d hd => hcm d (List.mem_cons_of_mem c hd)) (cur ++ [c])]
    simp

theorem escQuotes_eq_self (v : List Char) (h : quoteChar ∉ v) : escQuotes v = v := by
  induction v with
  | nil => rfl
  | cons c cs ih =>
    have hc : c ≠ quoteChar := fun he => h (he ▸ List.mem_cons_self c cs)
    rw [escQuotes, if_neg hc, ih (fun hm => h (List.mem_cons_of_mem c hm))]

theorem not_mem_of_contains_false {c : Char} {v : List Char}
    (h : v.contains c = false) : c ∉ v := by
  intro hm
  rw [List.contains_eq_any_beq] at h
  have : v.any (fun x => c == x) = true := List.any_eq_true.mpr ⟨c, hm, by simp⟩
  rw [this] at h
  cases h

theorem foldl_csvStep_escToken (v : List Char) (hq : quoteChar ∉ v)
    (res : List (List Char)) :
    (csvEscape v).foldl csvStep ⟨res, [], false⟩ = ⟨res, v, false⟩ := by
  unfold csvEscape
  by_cases hn : needsQuote v = true
  · rw [if_pos hn, escQuotes_eq_self v hq]
    have hopen : csvStep ⟨res, [], false⟩ quoteChar = ⟨res, [], true⟩ := by
      simp [csvStep]
    rw [show quoteChar :: v ++ [quoteChar] = quoteChar :: (v ++ [quoteChar]) from rfl,
      List.foldl_cons, hopen, List.foldl_append,
      foldl_csvStep_quoted v (fun c hc he => hq (he ▸ hc)) res []]
    simp [csvStep]
  · rw [if_neg hn]
    have hn' : needsQuote v = false := by
      cases hcc : needsQuote v
      · rfl
      · exact absurd hcc hn
    unfold needsQuote at hn'
    have hcm : v.contains ',' = false := by
      cases hcc : v.contains ','
      · rfl
      · rw [hcc] at hn'
        simp at hn'
    have hcm' : ∀ c ∈ v, c ≠ ',' := fun c hc he =>
      not_mem_of_contains_false hcm (he ▸ hc)
    have := foldl_csvStep_unquoted v (fun c hc he => hq (he ▸ hc)) hcm' res []
    simpa using this

theorem parseCSVLine_join_esc_general (vs : List (List Char)) (hne : vs ≠ [])
    (hq : ∀ v ∈ vs, quoteChar ∉ v) (res : List (List Char)) :
    (let st := (joinComma (vs.map csvEscape)).foldl csvStep ⟨res, [], false⟩
     st.result ++ [st.current]) = res ++ vs := by
  induction vs generalizing res with
  | nil => exact absurd rfl hne
  | cons v vs ih =>
    cases vs with
    | nil =>
      show (let st := (csvEscape v).foldl csvStep ⟨res, [], false⟩
            st.result ++ [st.current]) = res ++ [v]
      rw [foldl_csvStep_escToken v (hq v (List.mem_cons_self v [])) res]
    | cons v2 t =>
      have hjoin : joinComma ((v :: v2 :: t).map csvEscape) =
          csvEscape v ++ ',' :: joinComma ((v2 :: t).map csvEscape) := rfl
      have hcomma : csvStep ⟨res, v, false⟩ ',' = ⟨res ++ [v], [], false⟩ := by
        have hcq : (',' : Char) ≠ quoteChar := by decide
        simp [csvStep, hcq]
      show (let st := (joinComma ((v :: v2 :: t).map csvEscape)).foldl csvStep
              ⟨res, [], false⟩
            st.result ++ [st.current]) = res ++ v :: v2 :: t
      rw [hjoin, List.foldl_append,
        foldl_csvStep_escToken v (hq v (List.mem_cons_self v _)) res,
        List.foldl_cons, hcomma,
        ih (by simp) (fun w hw => hq w (List.mem_cons_of_mem v hw)) (res ++ [v])]
      simp

theorem parseCSVLine_join_esc (vs : List (List Char)) (hne : vs ≠ [])
    (hq : ∀ v ∈ vs, quoteChar ∉ v) :
    parseCSVLine (joinComma (vs.map csvEscape)) = vs := by
  have h := parseCSVLine_join_esc_general vs hne hq []
  simpa [parseCSVLine] using h

/-! ## Character facts about joins and escapes -/

theorem mem_joinComma {c : Char} (vs : List (List Char)) (h : c ∈ joinComma vs) :
    c = ',' ∨ ∃ v ∈ vs, c ∈ v := by
  induction vs with
  | nil => simp [joinComma] at h
  | cons v vs ih =>
    cases vs with
    | nil =>
      right
      exact ⟨v, List.mem_cons_self v [], h⟩
    | cons v2 t =>
      rw [show joinComma (v :: v2 :: t) = v ++ ',' :: joinComma (v2 :: t) from rfl]
        at h
      rcases List.mem_append.mp h with h1 | h1
      · right
        exact ⟨v, List.mem_cons_self v _, h1⟩
      · rcases List.mem_cons.mp h1 with h2 | h2
        · exact Or.inl h2
        · rcases ih h2 with h3 | ⟨w, hw, hcw⟩
          · exact Or.inl h3
          · exact Or.inr ⟨w, List.mem_cons_of_mem v hw, hcw⟩

theorem joinComma_head (vs : List (List Char))
    (hvs : ∀ v ∈ vs, ∀ c, v.head? = some c → isWsChar c = false) :
    ∀ c, (joinComma vs).head? = some c → isWsChar c = false := by
  induction vs with
  | nil => intro c hc; simp [joinComma] at hc
  | cons v vs ih =>
    cases vs with
    | nil => exact hvs v (List.mem_cons_self v [])
    | cons v2 t =>
      intro c hc
      rw [show joinComma (v :: v2 :: t) = v ++ ',' :: joinComma (v2 :: t) from rfl]
        at hc
      cases v with
      | nil =>
        rw [List.nil_append, List.head?_cons] at hc
        cases hc
        decide
      | cons a t2 =>
        rw [List.cons_append, List.head?_cons] at hc
        cases hc
        exact hvs _ (List.mem_cons_self _ _) _ rfl

theorem joinComma_last (vs : List (List Char))
    (hvs : ∀ v ∈ vs, ∀ c, v.getLast? = some c → isWsChar c = false) :
    ∀ c, (joinComma vs).getLast? = some c → isWsChar c = false := by
  induction vs with
  | nil => intro c hc; simp [joinComma] at hc
  | cons v vs ih =>
    cases vs with
    | nil => exact hvs v (List.mem_cons_self v [])
    | cons v2 t =>
      intro c hc
      rw [show joinComma (v :: v2 :: t) = v ++ ',' :: joinComma (v2 :: t) from rfl,
        List.getLast?_append_of_ne_nil v (by simp)] at hc
      cases hj : joinComma (v2 :: t) with
      | nil =>
        rw [hj] at hc
        simp only [List.getLast?_singleton, Option.some.injEq] at hc
        subst hc
        decide
      | cons d t2 =>
        rw [hj, show ',' :: d :: t2 = [','] ++ d :: t2 from rfl,
          List.getLast?_append_of_ne_nil [','] (by simp)] at hc
        refine ih (fun w hw => hvs w (List.mem_cons_of_mem v hw)) c ?_
        rw [hj]
        exact hc

theorem joinComma_ne_nil_two (a b : List Char) (t : List (List Char)) :
    joinComma (a :: b :: t) ≠ [] := by
  rw [show joinComma (a :: b :: t) = a ++ ',' :: joinComma (b :: t) from rfl]
  simp

theorem mem_escQuotes {c : Char} {v : List Char} (h : c ∈ escQuotes v) :
    c = quoteChar ∨ c ∈ v := by
  induction v with
  | nil => simp [escQuotes] at h
  | cons a t ih =>
    rw [escQuotes] at h
    split_ifs at h with ha
    · rcases List.mem_cons.mp h with h1 | h1
      · exact Or.inl h1
      · rcases List.mem_cons.mp h1 with h2 | h2
        · exact Or.inl h2
        · rcases ih h2 with h3 | h3
          · exact Or.inl h3
          · exact Or.inr (List.mem_cons_of_mem a h3)
    · rcases List.mem_cons.mp h with h1 | h1
      · exact Or.inr (h1 ▸ List.mem_cons_self a t)
      · rcases ih h1 with h2 | h2
        · exact Or.inl h2
        · exact Or.inr (List.mem_cons_of_mem a h2)

theorem mem_csvEscape {c : Char} {v : List Char} (h : c ∈ csvEscape v) :
    c = quoteChar ∨ c ∈ v := by
  unfold csvEscape at h
  split_ifs at h
  · rcases List.mem_cons.mp h with h1 | h1
    · exact Or.inl h1
    · rcases List.mem_append.mp h1 with h2 | h2
      · exact mem_escQuotes h2
      · rw [List.mem_singleton] at h2
        exact Or.inl h2
  · exact Or.inr h

theorem csvEscape_ne_nil {v : List Char} (h : v ≠ []) : csvEscape v ≠ [] := by
  unfold csvEscape
  split_ifs
  · simp
  · exact h

theorem csvEscape_last (v : List Char)
    (hv : ∀ c, v.getLast? = some c → isWsChar c = false) :
    ∀ c, (csvEscape v).getLast? = some c → isWsChar c = false := by
  intro c hc
  unfold csvEscape at hc
  split_ifs at hc
  · rw [show quoteChar :: escQuotes v ++ [quoteChar] =
        (quoteChar :: escQuotes v) ++ [quoteChar] from rfl,
      List.getLast?_concat] at hc
    cases hc
    decide
  · exact hv c hc

/-! ## Last characters of joined lines -/

theorem getLast?_joinNl (ls : List (List Char)) (l : List Char)
    (h : ls.getLast? = some l) (hl : l ≠ []) :
    (joinNl ls).getLast? = l.getLast? := by
  induction ls with
  | nil => simp at h
  | cons x ls ih =>
    cases ls with
    | nil =>
      simp only [List.getLast?_singleton, Option.some.injEq] at h
      subst h
      rfl
    | cons y t =>
      rw [show (x :: y :: t).getLast? = (y :: t).getLast? from
        (by rw [show x :: y :: t = [x] ++ y :: t from rfl,
          List.getLast?_append_of_ne_nil [x] (by simp)])] at h
      have hrec := ih h
      have hj : joinNl (y :: t) ≠ [] := by
        intro he
        rw [he] at hrec
        have : l.getLast? = none := hrec.symm
        rw [List.getLast?_eq_none_iff] at this
        exact hl this
      rw [show joinNl (x :: y :: t) = x ++ '\n' :: joinNl (y :: t) from rfl,
        List.getLast?_append_of_ne_nil x (by simp),
        show '\n' :: joinNl (y :: t) = ['\n'] ++ joinNl (y :: t) from rfl,
        List.getLast?_append_of_ne_nil ['\n'] hj]
      exact hrec

/-! ## Association lookup on zipped rows -/

theorem zip_fst_snd (l : List (α × β)) :
    (l.map Prod.fst).zip (l.map Prod.snd) = l := by
  induction l with
  | nil => rfl
  | cons p t ih => simp [ih]

theorem map_assocFind_zip (K : List (List Char)) (vs : List α)
    (hnd : K.Nodup) (hlen : vs.length = K.length) :
    K.map (fun k => assocFind (K.zip vs) k) = vs.map some := by
  induction K generalizing vs with
  | nil =>
    cases vs with
    | nil => rfl
    | cons v t => simp at hlen
  | cons k K ih =>
    cases vs with
    | nil => simp at hlen
    | cons v vs =>
      have hk : k ∉ K := (List.nodup_cons.mp hnd).1
      have hhead : assocFind ((k :: K).zip (v :: vs)) k = some v := by
        simp [assocFind]
      rw [List.map_cons, List.map_cons, hhead]
      congr 1
      have htail : ∀ k2 ∈ K, assocFind ((k :: K).zip (v :: vs)) k2 =
          assocFind (K.zip vs) k2 := by
        intro k2 hk2
        have hne2 : k ≠ k2 := fun he => hk (he ▸ hk2)
        show assocFind ((k, v) :: K.zip vs) k2 = assocFind (K.zip vs) k2
        rw [show assocFind ((k, v) :: K.zip vs) k2 =
          (if k = k2 then some v else assocFind (K.zip vs) k2) from rfl,
          if_neg hne2]
      rw [List.map_congr_left htail,
        ih vs (List.nodup_cons.mp hnd).2 (by simpa using hlen)]

/-! ## Round trip of well-formed record tables -/

theorem contains_iff (v : List Char) (c : Char) : v.contains c = true ↔ c ∈ v := by
  rw [List.contains_eq_any_beq, List.any_eq_true]
  constructor
  · rintro ⟨x, hx, he⟩
    rw [beq_iff_eq] at he
    exact he ▸ hx
  · intro h
    exact ⟨c, h, by simp⟩

theorem contains_false_of_not_mem {c : Char} {v : List Char} (h : c ∉ v) :
    v.contains c = false := by
  cases hc : v.contains c
  · rfl
  · exact absurd ((contains_iff v c).mp hc) h

theorem needsQuote_false {v : List Char} (h1 : ',' ∉ v) (h2 : quoteChar ∉ v)
    (h3 : '\n' ∉ v) : needsQuote v = false := by
  unfold needsQuote
  rw [contains_false_of_not_mem h1, contains_false_of_not_mem h2,
    contains_false_of_not_mem h3]
  rfl

theorem csvEscape_eq_self {v : List Char} (h1 : ',' ∉ v) (h2 : quoteChar ∉ v)
    (h3 : '\n' ∉ v) : csvEscape v = v := by
  unfold csvEscape
  rw [needsQuote_false h1 h2 h3]
  rfl

theorem toJsRow_zip (K : List (List Char)) (vs : List (List Char)) :
    (K.zip vs).map (fun kv => (kv.1, JsonValue.str kv.2)) =
      K.zip (vs.map JsonValue.str) := by
  induction K generalizing vs with
  | nil => rfl
  | cons k K ih =>
    cases vs with
    | nil => rfl
    | cons v vs => simp [ih]

theorem cell_of_str (v : List Char) :
    jsStringOf (jsOrEmptyStr (some (JsonValue.str v))) = v := by
  show jsStringOf (if jsFalsy (JsonValue.str v) = true
      then JsonValue.str [] else JsonValue.str v) = v
  split_ifs with hf
  · have hv : v = [] := by simpa [jsFalsy, List.isEmpty_iff] using hf
    subst hv
    rfl
  · rfl

/-- `buildRow` on already trimmed, distinct keys and already trimmed
values of matching length is the plain zip. -/
theorem buildRow_zip (K vs : List (List Char)) (hnd : K.Nodup)
    (hKfix : ∀ h ∈ K, trimChars h = h) (hvfix : ∀ v ∈ vs, trimChars v = v)
    (hlen : vs.length = K.length) :
    buildRow K vs = K.zip vs := by
  have hmapfix : K.map trimChars = K := by
    rw [List.map_congr_left hKfix, List.map_id']
  rw [buildRow_eq K vs (by rw [hmapfix]; exact hnd)]
  apply List.ext_getElem
  · simp [List.enum_length, hlen]
  · intro n h1 h2
    have hn : n < K.length := by simpa [List.enum_length] using h1
    have hnv : n < vs.length := by rw [hlen]; exact hn
    have henum : n < K.enum.length := by simpa [List.enum_length] using hn
    rw [List.getElem_map, List.getElem_enum, List.getElem_zip]
    have hgetd : vs.getD n [] = vs[n] := by
      rw [List.getD_eq_getElem?_getD, List.getElem?_eq_getElem hnv]
      rfl
    rw [hgetd, hKfix K[n] (List.getElem_mem hn), hvfix vs[n] (List.getElem_mem hnv)]

/-- Serialising a table of already-trimmed, quote-free, newline-free
records (keys distinct, comma-free, header line non-empty, final data
line non-empty) and re-parsing it yields the table unchanged. -/
theorem roundtrip_rows (K : List (List Char)) (rowsV : List (List (List Char)))
    (hKnil : K ≠ []) (hKne : K ≠ [[]]) (hnodup : K.Nodup)
    (hKgood : ∀ h ∈ K, trimChars h = h ∧ quoteChar ∉ h ∧ '\n' ∉ h ∧ ',' ∉ h)
    (hrows : rowsV ≠ [])
    (hV : ∀ vs ∈ rowsV, vs.length = K.length ∧
      ∀ v ∈ vs, trimChars v = v ∧ quoteChar ∉ v ∧ '\n' ∉ v)
    (hlastline : 2 ≤ K.length ∨ ∀ vs, rowsV.getLast? = some vs → vs ≠ [[]]) :
    parseCSV (dataToCSV (toJsRows (rowsV.map (fun vs => K.zip vs)))) =
      rowsV.map (fun vs => K.zip vs) := by
  -- the serialised form
  have hrowsJs : toJsRows (rowsV.map (fun vs => K.zip vs)) =
      rowsV.map (fun vs => K.zip (vs.map JsonValue.str)) := by
    unfold toJsRows
    rw [List.map_map]
    exact List.map_congr_left (fun vs _ => toJsRow_zip K vs)
  -- the cells of one row
  have hcells : ∀ vs ∈ rowsV,
      K.map (fun h => cellString (K.zip (vs.map JsonValue.str)) h) =
        vs.map csvEscape := by
    intro vs hvs
    have hlen : (vs.map JsonValue.str).length = K.length := by
      rw [List.length_map]
      exact (hV vs hvs).1
    have hfind := map_assocFind_zip K (vs.map JsonValue.str) hnodup hlen
    unfold cellString
    calc K.map (fun h =>
          csvEscape (jsStringOf (jsOrEmptyStr (assocFind (K.zip (vs.map JsonValue.str)) h))))
        = (K.map (fun h => assocFind (K.zip (vs.map JsonValue.str)) h)).map
            (fun o => csvEscape (jsStringOf (jsOrEmptyStr o))) := by
          rw [List.map_map]
          rfl
      _ = ((vs.map JsonValue.str).map some).map
            (fun o => csvEscape (jsStringOf (jsOrEmptyStr o))) := by rw [hfind]
      _ = vs.map csvEscape := by
          rw [List.map_map, List.map_map]
          exact List.map_congr_left (fun v _ => by
            simp only [Function.comp]
            rw [cell_of_str])
  obtain ⟨vs0, restV, rfl⟩ : ∃ vs0 restV, rowsV = vs0 :: restV := by
    cases rowsV with
    | nil => exact absurd rfl hrows
    | cons a t => exact ⟨a, t, rfl⟩
  set rowsV := vs0 :: restV with hrowsV
  -- the serialised text
  have hfst : (K.zip (vs0.map JsonValue.str)).map (fun p => p.1) = K := by
    apply List.map_fst_zip
    rw [List.length_map]
    exact ((hV vs0 (List.mem_cons_self vs0 restV)).1).ge
  have hser : dataToCSV (toJsRows (rowsV.map (fun vs => K.zip vs))) =
      joinNl (joinComma K ::
        rowsV.map (fun vs => joinComma (vs.map csvEscape))) := by
    rw [hrowsJs]
    have hred : dataToCSV (K.zip (vs0.map JsonValue.str) ::
        restV.map (fun vs => K.zip (vs.map JsonValue.str))) =
        joinNl (joinComma ((K.zip (vs0.map JsonValue.str)).map (fun p => p.1)) ::
          (K.zip (vs0.map JsonValue.str) ::
            restV.map (fun vs => K.zip (vs.map JsonValue.str))).map
            (fun row => joinComma
              (((K.zip (vs0.map JsonValue.str)).map (fun p => p.1)).map
                (fun h => cellString row h)))) := rfl
    rw [show rowsV.map (fun vs => K.zip (vs.map JsonValue.str)) =
        K.zip (vs0.map JsonValue.str) ::
          restV.map (fun vs => K.zip (vs.map JsonValue.str)) from rfl,
      hred, hfst]
    congr 1
    congr 1
    rw [show K.zip (vs0.map JsonValue.str) ::
        restV.map (fun vs => K.zip (vs.map JsonValue.str)) =
        rowsV.map (fun vs => K.zip (vs.map JsonValue.str)) from rfl,
      List.map_map]
    exact List.map_congr_left (fun vs hvs => by
      simp only [Function.comp]
      rw [hcells vs hvs])
  rw [hser]
  -- head and last characters of the serialised text are not whitespace
  have hKhead : ∀ h ∈ K, ∀ c, h.head? = some c → isWsChar c = false := by
    intro h hh c hc
    have := (hKgood h hh).1
    exact trim_head h c (by rwa [this])
  have hKlast : ∀ h ∈ K, ∀ c, h.getLast? = some c → isWsChar c = false := by
    intro h hh c hc
    have := (hKgood h hh).1
    exact trim_last h c (by rwa [this])
  have hheader_ne : joinComma K ≠ [] := by
    cases K with
    | nil => exact absurd rfl hKnil
    | cons h t =>
      cases t with
      | nil =>
        show h ≠ []
        intro he
        exact hKne (by rw [he])
      | cons h2 t2 => exact joinComma_ne_nil_two h h2 t2
  -- every line of the serialisation is newline-free
  have hline_no_nl : ∀ vs ∈ rowsV, '\n' ∉ joinComma (vs.map csvEscape) := by
    intro vs hvs hmem
    rcases mem_joinComma _ hmem with h1 | ⟨ev, hev, hcev⟩
    · exact absurd h1 (by decide)
    · rcases List.mem_map.mp hev with ⟨v, hv, rfl⟩
      rcases mem_csvEscape hcev with h2 | h2
      · exact absurd h2 (by decide)
      · exact ((hV vs hvs).2 v hv).2.2 h2
  have hheader_no_nl : '\n' ∉ joinComma K := by
    intro hmem
    rcases mem_joinComma _ hmem with h1 | ⟨h, hh, hch⟩
    · exact absurd h1 (by decide)
    · exact (hKgood h hh).2.2.1 hch
  -- the last line is non-empty with non-whitespace last character
  obtain ⟨vsLast, hlastV⟩ : ∃ vsLast, rowsV.getLast? = some vsLast := by
    cases hgl : rowsV.getLast? with
    | none =>
      rw [List.getLast?_eq_none_iff] at hgl
      exact absurd hgl hrows
    | some a => exact ⟨a, rfl⟩
  have hvsLast_mem : vsLast ∈ rowsV := List.mem_of_mem_getLast? hlastV
  have hlast_ne : joinComma (vsLast.map csvEscape) ≠ [] := by
    cases hvl : vsLast with
    | nil =>
      have hlenl := (hV vsLast hvsLast_mem).1
      rw [hvl] at hlenl
      have hK0 : K = [] := List.length_eq_zero.mp (by simpa using hlenl.symm)
      exact absurd hK0 hKnil
    | cons a t =>
      cases t with
      | nil =>
        have hlenl := (hV vsLast hvsLast_mem).1
        rw [hvl] at hlenl
        simp at hlenl
        have hane : a ≠ [] := by
          rcases hlastline with h2 | h2
          · exact absurd h2 (by omega)
          · intro he
            exact h2 vsLast hlastV (by rw [hvl, he])
        show joinComma [csvEscape a] ≠ []
        show csvEscape a ≠ []
        exact csvEscape_ne_nil hane
      | cons b t2 =>
        show joinComma (csvEscape a :: csvEscape b :: t2.map csvEscape) ≠ []
        exact joinComma_ne_nil_two _ _ _
  -- assemble: trimming the serialisation is the identity
  set lines := rowsV.map (fun vs => joinComma (vs.map csvEscape)) with hlines
  have hlines_ne : lines ≠ [] := by
    rw [hlines, hrowsV]
    simp
  have hlinesLast : lines.getLast? = some (joinComma (vsLast.map csvEscape)) := by
    rw [hlines, List.getLast?_map, hlastV]
    rfl
  have hS_last : ∀ c, (joinNl (joinComma K :: lines)).getLast? = some c →
      isWsChar c = false := by
    intro c hc
    have hgl : (joinComma K :: lines).getLast? =
        some (joinComma (vsLast.map csvEscape)) := by
      rw [show joinComma K :: lines = [joinComma K] ++ lines from rfl,
        List.getLast?_append_of_ne_nil [joinComma K] hlines_ne]
      exact hlinesLast
    rw [getLast?_joinNl _ _ hgl hlast_ne] at hc
    refine joinComma_last _ ?_ c hc
    intro ev hev
    rcases List.mem_map.mp hev with ⟨v, hv, rfl⟩
    exact csvEscape_last v (fun d hd => by
      have := ((hV vsLast hvsLast_mem).2 v hv).1
      exact trim_last v d (by rwa [this]))
  have hS_head : ∀ c, (joinNl (joinComma K :: lines)).head? = some c →
      isWsChar c = false := by
    intro c hc
    cases hln : lines with
    | nil => exact absurd hln hlines_ne
    | cons l1 ls1 =>
      rw [hln] at hc
      rw [show joinNl (joinComma K :: l1 :: ls1) =
          joinComma K ++ '\n' :: joinNl (l1 :: ls1) from rfl,
        List.head?_append_of_ne_nil _ hheader_ne] at hc
      exact joinComma_head K hKhead c hc
  have htrim : trimChars (joinNl (joinComma K :: lines)) =
      joinNl (joinComma K :: lines) :=
    trim_eq_self _ hS_head hS_last
  -- splitting recovers the lines
  have hsplit : splitNl (joinNl (joinComma K :: lines)) = joinComma K :: lines := by
    refine splitNl_joinNl _ (by simp) ?_
    intro l hl
    rcases List.mem_cons.mp hl with h1 | h1
    · subst h1
      exact hheader_no_nl
    · rcases List.mem_map.mp (hlines ▸ h1) with ⟨vs, hvs, rfl⟩
      exact hline_no_nl vs hvs
  -- the header line re-parses to the keys
  have hKesc : K.map csvEscape = K := by
    refine List.map_congr_left (fun h hh => ?_) |>.trans (List.map_id K)
    exact csvEscape_eq_self (hKgood h hh).2.2.2 (hKgood h hh).2.1 (hKgood h hh).2.2.1
  have hheader_parse : parseCSVLine (joinComma K) = K := by
    have h1 := parseCSVLine_join_esc K hKnil (fun h hh => (hKgood h hh).2.1)
    rw [hKesc] at h1
    exact h1
  -- each data line re-parses to its values
  have hline_parse : ∀ vs ∈ rowsV,
      parseCSVLine (joinComma (vs.map csvEscape)) = vs := by
    intro vs hvs
    refine parseCSVLine_join_esc vs ?_ ?_
    · intro he
      have := (hV vs hvs).1
      rw [he] at this
      exact hKnil (by simpa using this.symm)
    · intro v hv
      exact ((hV vs hvs).2 v hv).2.1
  -- conclude
  unfold parseCSV
  rw [htrim, hsplit]
  show lines.map (fun line =>
      buildRow (parseCSVLine (joinComma K)) (parseCSVLine line)) = _
  rw [hheader_parse, hlines, List.map_map]
  refine List.map_congr_left (fun vs hvs => ?_)
  simp only [Function.comp]
  rw [hline_parse vs hvs]
  exact buildRow_zip K vs hnodup (fun h hh => (hKgood h hh).1)
    (fun v hv => ((hV vs hvs).2 v hv).1) (hV vs hvs).1

/-- `parseCSV` unfolded at a known line split. -/
theorem parseCSV_eq (content header : List Char) (dataLines : List (List Char))
    (hsplit : splitNl (trimChars content) = header :: dataLines) :
    parseCSV content = dataLines.map (fun line =>
      buildRow (parseCSVLine header) (parseCSVLine line)) := by
  unfold parseCSV
  rw [hsplit]

/-! ## Claim theorems -/

/-- Claim C1, counterexample: at `/api/train`, a non-quota failure on
the very first upstream attempt is retried (after a 2000 ms backoff the
second attempt succeeds), instead of being propagated immediately as
the claim states for every call site. -/
theorem C1_counterexample :
    quotaMsg ("network timeout".data) = false ∧
    trainRetry (fun i => if i = 0 then .failure ("network timeout".data)
                         else .success ("ok".data)) =
      ⟨.ok ("ok".data), 2, [2000]⟩ ∧
    (trainRetry (fun i => if i = 0 then .failure ("network timeout".data)
                          else .success ("ok".data))).outcome ≠
      .error ("network timeout".data) := by
  refine ⟨by decide, rfl, ?_⟩
  intro h
  simp [trainRetry, retryLoop] at h

/-- Claim C1 (amended): only the `/api/process` retry loop restricts
retries to quota-type failures (fixed 2000 ms backoff, at most 3
attempts total, non-quota failures propagated immediately); the
`/api/train` and `/api/predict` retry loops retry any failure, with the
same backoff and the same 3-attempt bound. -/
theorem C1_amended :
    (∀ (a : Nat → Outcome) m, a 0 = .failure m → quotaMsg m = false →
      processRetry a = ⟨.error m, 1, []⟩) ∧
    (∀ (a : Nat → Outcome) m t, a 0 = .failure m → quotaMsg m = true →
      a 1 = .success t →
      processRetry a = ⟨.ok t, 2, [2000]⟩) ∧
    (∀ (a : Nat → Outcome) m0 m1 m2,
      a 0 = .failure m0 → quotaMsg m0 = true →
      a 1 = .failure m1 → quotaMsg m1 = true →
      a 2 = .failure m2 →
      processRetry a = ⟨.error m2, 3, [2000, 2000]⟩) ∧
    (∀ (a : Nat → Outcome) m t, a 0 = .failure m → a 1 = .success t →
      trainRetry a = ⟨.ok t, 2, [2000]⟩ ∧
      predictRetry a = ⟨.ok t, 2, [2000]⟩) ∧
    (∀ (a : Nat → Outcome) m0 m1 m2,
      a 0 = .failure m0 → a 1 = .failure m1 → a 2 = .failure m2 →
      trainRetry a = ⟨.error m2, 3, [2000, 2000]⟩ ∧
      predictRetry a = ⟨.error m2, 3, [2000, 2000]⟩) ∧
    (∀ a : Nat → Outcome,
      (processRetry a).attemptsMade ≤ 3 ∧
      (trainRetry a).attemptsMade ≤ 3 ∧
      (predictRetry a).attemptsMade ≤ 3) ∧
    (∀ (a : Nat → Outcome) w,
      (w ∈ (processRetry a).backoffsMs ∨ w ∈ (trainRetry a).backoffsMs ∨
        w ∈ (predictRetry a).backoffsMs) → w = 2000) := by
  refine ⟨?_, ?_, ?_, ?_, ?_, ?_, ?_⟩
  · intro a m h0 hq
    simp [processRetry, retryLoop, h0, hq]
  · intro a m t h0 hq h1
    simp [processRetry, retryLoop, h0, hq, h1]
  · intro a m0 m1 m2 h0 hq0 h1 hq1 h2
    simp [processRetry, retryLoop, h0, hq0, h1, hq1, h2]
  · intro a m t h0 h1
    constructor <;> simp [trainRetry, predictRetry, retryLoop, h0, h1]
  · intro a m0 m1 m2 h0 h1 h2
    constructor <;> simp [trainRetry, predictRetry, retryLoop, h0, h1, h2]
  · intro a
    exact ⟨retryLoop_attempts_le _ a 3 0 [],
      retryLoop_attempts_le _ a 3 0 [], retryLoop_attempts_le _ a 3 0 []⟩
  · intro a w hw
    rcases hw with h | h | h
    · exact retryLoop_backoffs _ a 3 0 [] (by simp) w h
    · exact retryLoop_backoffs _ a 3 0 [] (by simp) w h
    · exact retryLoop_backoffs _ a 3 0 [] (by simp) w h

/-- Witness for C1 (amended), instantiating the non-quota and the
retry-then-succeed characterisations at concrete attempt sequences. -/
theorem C1_witness :
    processRetry (fun _ => .failure ("boom".data)) =
      ⟨.error ("boom".data), 1, []⟩ ∧
    trainRetry (fun i => if i = 0 then .failure ("boom".data)
                         else .success ("fine".data)) =
      ⟨.ok ("fine".data), 2, [2000]⟩ :=
  ⟨C1_amended.1 _ _ rfl (by decide),
   (C1_amended.2.2.2.1 _ _ _ rfl rfl).1⟩

/-- Claim C2, counterexample: for the cleaned reply `x [1,2]` direct
parsing fails and the bracketed substring `[1,2]` parses, yet
simulate-train and predict surface their hard parse error because their
extraction regex scans only for braces; and for the cleaned reply
`x {a}` the transform operation does not fall back to
`{ data: rawText }` — the failing `JSON.parse` of the extracted
substring escapes as an error. -/
theorem C2_counterexample :
    jsonParse ("x [1,2]".data) = none ∧
    jsonMatchProcess ("x [1,2]".data) = some ("[1,2]".data) ∧
    jsonParse ("[1,2]".data) = some (.arr [.num "1".data, .num "2".data]) ∧
    trainRecover ("x [1,2]".data) = .notFound "Failed to parse training results" ∧
    predictRecover ("x [1,2]".data) = .notFound "Failed to parse prediction" ∧
    processRecover ("x {a}".data) = .engineError ∧
    processRecover ("x {a}".data) ≠
      .value (.obj [("data".data, .str ("x {a}".data))]) := by
  refine ⟨rfl, by decide, rfl, rfl, rfl, rfl, ?_⟩
  intro h
  rw [show processRecover ("x {a}".data) = .engineError from rfl] at h
  exact Recovered.noConfusion h

/-- Claim C2 (amended): when direct JSON parsing of the cleaned reply
fails, the transform operation scans for a bracketed-or-braced
substring while simulate-train and predict scan for a braced substring
only; when no substring is found, transform wraps the cleaned text as
`{ data: text }` and the other two surface a hard error; when a
substring is found, its parse result is used, and a failing parse of
the substring is a hard error for all three operations. -/
theorem C2_amended :
    (∀ t v, jsonParse t = some v →
      processRecover t = .value v ∧ trainRecover t = .value v ∧
      predictRecover t = .value v) ∧
    (∀ t, jsonParse t = none → jsonMatchProcess t = none →
      processRecover t = .value (.obj [("data".data, .str t)])) ∧
    (∀ t sub v, jsonParse t = none → jsonMatchProcess t = some sub →
      jsonParse sub = some v → processRecover t = .value v) ∧
    (∀ t sub, jsonParse t = none → jsonMatchProcess t = some sub →
      jsonParse sub = none → processRecover t = .engineError) ∧
    (∀ t, jsonParse t = none → braceMatch t = none →
      trainRecover t = .notFound "Failed to parse training results" ∧
      predictRecover t = .notFound "Failed to parse prediction") ∧
    (∀ t sub v, jsonParse t = none → braceMatch t = some sub →
      jsonParse sub = some v →
      trainRecover t = .value v ∧ predictRecover t = .value v) ∧
    (∀ t sub, jsonParse t = none → braceMatch t = some sub →
      jsonParse sub = none →
      trainRecover t = .engineError ∧ predictRecover t = .engineError) := by
  refine ⟨?_, ?_, ?_, ?_, ?_, ?_, ?_⟩
  · intro t v h
    exact ⟨by simp [processRecover, h], by simp [trainRecover, h],
      by simp [predictRecover, h]⟩
  · intro t h hm
    simp [processRecover, h, hm]
  · intro t sub v h hm hs
    simp [processRecover, h, hm, hs]
  · intro t sub h hm hs
    simp [processRecover, h, hm, hs]
  · intro t h hm
    exact ⟨by simp [trainRecover, h, hm], by simp [predictRecover, h, hm]⟩
  · intro t sub v h hm hs
    exact ⟨by simp [trainRecover, h, hm, hs], by simp [predictRecover, h, hm, hs]⟩
  · intro t sub h hm hs
    exact ⟨by simp [trainRecover, h, hm, hs], by simp [predictRecover, h, hm, hs]⟩

/-- Witness for C2 (amended): the wrap-as-text fallback of the
transform operation at a reply with no brackets or braces. -/
theorem C2_witness :
    processRecover ("hello".data) =
      .value (.obj [("data".data, .str ("hello".data))]) :=
  C2_amended.2.1 ("hello".data) rfl rfl

/-- Claim C3 (confirmed): for a CSV text whose trimmed content splits
into a header line and N data lines, with pairwise distinct trimmed
column names, `parseCSV` produces exactly N records whose key list is
exactly the M trimmed headers (hence M keys each), and a data line with
fewer than M fields has its missing trailing fields equal to the empty
string. -/
theorem C3_parser_shape (content header : List Char) (dataLines : List (List Char))
    (hsplit : splitNl (trimChars content) = header :: dataLines)
    (hnd : ((parseCSVLine header).map trimChars).Nodup) :
    (parseCSV content).length = dataLines.length ∧
    (∀ r ∈ parseCSV content,
      r.map (fun p => p.1) = (parseCSVLine header).map trimChars ∧
      r.length = (parseCSVLine header).length) ∧
    (∀ i j, i < dataLines.length → j < (parseCSVLine header).length →
      (parseCSVLine (dataLines.getD i [])).length ≤ j →
      (((parseCSV content).getD i []).getD j ([], ['?'])).2 = []) := by
  have hps : parseCSV content =
      dataLines.map (fun line => buildRow (parseCSVLine header) (parseCSVLine line)) := by
    unfold parseCSV
    rw [hsplit]
  refine ⟨by rw [hps]; simp, ?_, ?_⟩
  · intro r hr
    rw [hps] at hr
    rcases List.mem_map.mp hr with ⟨line, _, rfl⟩
    rw [buildRow_eq _ _ hnd]
    constructor
    · rw [List.map_map]
      have : ((parseCSVLine header).enum.map Prod.snd).map trimChars =
          (parseCSVLine header).map trimChars := by
        rw [List.enum_map_snd]
      rw [← this, List.map_map]
      rfl
    · rw [List.length_map, List.enum_length]
  · intro i j hi hj hlen
    have hget : (parseCSV content).getD i [] =
        buildRow (parseCSVLine header) (parseCSVLine (dataLines.getD i [])) := by
      rw [hps, List.getD_eq_getElem?_getD, List.getElem?_map,
        List.getD_eq_getElem?_getD]
      rw [List.getElem?_eq_getElem hi]
      rfl
    rw [hget, buildRow_eq _ _ hnd]
    have hjlen : j < (parseCSVLine header).enum.length := by
      rw [List.enum_length]; exact hj
    rw [List.getD_eq_getElem?_getD, List.getElem?_map,
      List.getElem?_eq_getElem hjlen]
    simp only [Option.map_some', Option.getD_some]
    have hval : (parseCSVLine (dataLines.getD i [])).getD
        ((parseCSVLine header).enum[j].1) [] = [] := by
      have hfst : ((parseCSVLine header).enum[j]).1 = j := by
        have := List.getElem_enum (parseCSVLine header) (i := j) (h := hjlen)
        rw [this]
      rw [hfst, List.getD_eq_getElem?_getD, List.getElem?_eq_none hlen]
      rfl
    simp only [hval]
    rfl

/-- Witness for C3: the text `a,b` / `1,2` / `3` yields two records,
each with keys `a`,`b`, the short second line padding `b` with the
empty string. -/
theorem C3_witness :
    (parseCSV ("a,b\n1,2\n3".data)).length = 2 ∧
    (((parseCSV ("a,b\n1,2\n3".data)).getD 1 []).getD 1 ([], ['?'])).2 = [] :=
  ⟨(C3_parser_shape ("a,b\n1,2\n3".data) ("a,b".data) ["1,2".data, "3".data]
      (by decide) (by decide)).1,
   (C3_parser_shape ("a,b\n1,2\n3".data) ("a,b".data) ["1,2".data, "3".data]
      (by decide) (by decide)).2.2 1 1 (by decide) (by decide) (by decide)⟩

/-- Claim C4 (confirmed): in `parseCSVLine`, a double quote toggles the
in-quotes state, and a double-quote-enclosed field is parsed as one
field even when it contains commas or newline characters. -/
theorem C4_quoted_fields :
    (∀ st : LineState, csvStep st quoteChar = { st with inQuotes := !st.inQuotes }) ∧
    (∀ v : List Char, (∀ c ∈ v, c ≠ quoteChar) →
      parseCSVLine (quoteChar :: v ++ [quoteChar]) = [v]) := by
  constructor
  · intro st
    simp [csvStep]
  · intro v hv
    have fold_body : ∀ (w : List Char) (cur : List Char),
        (∀ c ∈ w, c ≠ quoteChar) →
        w.foldl csvStep ⟨[], cur, true⟩ = ⟨[], cur ++ w, true⟩ := by
      intro w
      induction w with
      | nil => intro cur _; simp
      | cons c cs ih =>
        intro cur hw
        have hc : c ≠ quoteChar := hw c (List.mem_cons_self c cs)
        have hstep : csvStep ⟨[], cur, true⟩ c = ⟨[], cur ++ [c], true⟩ := by
          simp [csvStep, hc]
        rw [List.foldl_cons, hstep,
          ih (cur ++ [c]) (fun d hd => hw d (List.mem_cons_of_mem c hd))]
        simp
    have key : (quoteChar :: v ++ [quoteChar]).foldl csvStep ⟨[], [], false⟩ =
        ⟨[], v, false⟩ := by
      rw [show quoteChar :: v ++ [quoteChar] = quoteChar :: (v ++ [quoteChar]) from rfl,
        List.foldl_cons,
        show csvStep ⟨[], [], false⟩ quoteChar = ⟨[], [], true⟩ from by simp [csvStep],
        List.foldl_append, fold_body v [] hv]
      simp [csvStep]
    have expand : parseCSVLine (quoteChar :: v ++ [quoteChar]) =
        ((quoteChar :: v ++ [quoteChar]).foldl csvStep ⟨[], [], false⟩).result ++
        [((quoteChar :: v ++ [quoteChar]).foldl csvStep ⟨[], [], false⟩).current] := rfl
    rw [expand, key]
    rfl

/-- Witness for C4: a quoted field containing both the delimiter and a
newline character. -/
theorem C4_witness :
    parseCSVLine (quoteChar :: ("x,y".data ++ '\n' :: "z".data) ++ [quoteChar]) =
      ["x,y".data ++ '\n' :: "z".data] :=
  C4_quoted_fields.2 ("x,y".data ++ '\n' :: "z".data) (by decide)

/-- Claim C5 (amended): parse-serialise-reparse is the identity on the
parsed records provided the trimmed column names are pairwise distinct,
comma-free and not the single empty name, and the last record's
serialised line is non-empty (at least two columns, or a non-empty
value in the single column).  Without these conditions the round trip
can fail, because `dataToCSV` never quotes header names and a trailing
empty line is trimmed away before re-parsing. -/
theorem C5_roundtrip (content header : List Char) (dataLines : List (List Char))
    (hsplit : splitNl (trimChars content) = header :: dataLines)
    (hnd : ((parseCSVLine header).map trimChars).Nodup)
    (hcomma : ∀ h ∈ (parseCSVLine header).map trimChars, ',' ∉ h)
    (hKne : (parseCSVLine header).map trimChars ≠ [[]])
    (hlast : 2 ≤ (parseCSVLine header).length ∨
      ∀ r ∈ (parseCSV content).getLast?, r.map (fun p => p.2) ≠ [[]]) :
    parseCSV (dataToCSV (toJsRows (parseCSV content))) = parseCSV content := by
  have hps := parseCSV_eq content header dataLines hsplit
  cases dataLines with
  | nil =>
    rw [hps]
    rfl
  | cons line0 rest =>
    have hheader_mem : header ∈ splitNl (trimChars content) := by
      rw [hsplit]
      exact List.mem_cons_self header _
    have hheader_nl : ∀ c ∈ header, c ≠ '\n' := fun c hc he =>
      splitNl_no_nl (trimChars content) header hheader_mem (he ▸ hc)
    -- shape of every parsed record
    have hrec_shape : ∀ r ∈ parseCSV content,
        r.map (fun p => p.1) = (parseCSVLine header).map trimChars ∧
        (r.map (fun p => p.2)).length =
          ((parseCSVLine header).map trimChars).length ∧
        (∀ v ∈ r.map (fun p => p.2),
          trimChars v = v ∧ quoteChar ∉ v ∧ '\n' ∉ v) := by
      intro r hr
      rw [hps] at hr
      rcases List.mem_map.mp hr with ⟨line, hline, rfl⟩
      have hline_mem : line ∈ splitNl (trimChars content) := by
        rw [hsplit]
        exact List.mem_cons_of_mem header hline
      have hline_nl : ∀ c ∈ line, c ≠ '\n' := fun c hc he =>
        splitNl_no_nl (trimChars content) line hline_mem (he ▸ hc)
      have hfields_nl := parseCSVLine_chars (fun c => c ≠ '\n') line hline_nl
      have hfields_nq := parseCSVLine_noquote line
      rw [buildRow_eq (parseCSVLine header) (parseCSVLine line) hnd]
      refine ⟨?_, ?_, ?_⟩
      · rw [List.map_map]
        show (parseCSVLine header).enum.map
          (fun iv => trimChars iv.2) = (parseCSVLine header).map trimChars
        rw [show ((parseCSVLine header).enum.map (fun iv => trimChars iv.2)) =
          ((parseCSVLine header).enum.map Prod.snd).map trimChars from by
            rw [List.map_map]; rfl,
          List.enum_map_snd]
      · simp [List.enum_length]
      · intro v hv
        rw [List.map_map] at hv
        rcases List.mem_map.mp hv with ⟨iv, _, rfl⟩
        show trimChars (trimChars ((parseCSVLine line).getD iv.1 [])) =
            trimChars ((parseCSVLine line).getD iv.1 []) ∧
          quoteChar ∉ trimChars ((parseCSVLine line).getD iv.1 []) ∧
          '\n' ∉ trimChars ((parseCSVLine line).getD iv.1 [])
        have hw : (parseCSVLine line).getD iv.1 [] = [] ∨
            (parseCSVLine line).getD iv.1 [] ∈ parseCSVLine line := by
          rw [List.getD_eq_getElem?_getD]
          cases hx : (parseCSVLine line)[iv.1]? with
          | none => left; rfl
          | some x =>
            right
            show x ∈ parseCSVLine line
            exact List.getElem?_mem hx
        refine ⟨trim_idem _, ?_, ?_⟩
        · intro hq
          have hmem := mem_trim hq
          rcases hw with h0 | h0
          · rw [h0] at hmem
            simp at hmem
          · exact hfields_nq _ h0 hmem
        · intro hnl
          have hmem := mem_trim hnl
          rcases hw with h0 | h0
          · rw [h0] at hmem
            simp at hmem
          · exact hfields_nl _ h0 '\n' hmem rfl
    have hzip : ∀ r ∈ parseCSV content,
        ((parseCSVLine header).map trimChars).zip (r.map (fun p => p.2)) = r := by
      intro r hr
      have hz := zip_fst_snd r
      rw [(hrec_shape r hr).1] at hz
      exact hz
    have hback : ((parseCSV content).map (fun r => r.map (fun p => p.2))).map
        (fun vs => ((parseCSVLine header).map trimChars).zip vs) =
        parseCSV content := by
      rw [List.map_map]
      calc (parseCSV content).map (fun r =>
            ((parseCSVLine header).map trimChars).zip (r.map (fun p => p.2)))
          = (parseCSV content).map (fun r => r) :=
            List.map_congr_left (fun r hr => hzip r hr)
        _ = parseCSV content := List.map_id' _
    have happly := roundtrip_rows ((parseCSVLine header).map trimChars)
      ((parseCSV content).map (fun r => r.map (fun p => p.2)))
      (by
        intro he
        exact parseCSVLine_ne_nil header (List.map_eq_nil_iff.mp he))
      hKne hnd
      (by
        intro h hh
        rcases List.mem_map.mp hh with ⟨h0, hh0, rfl⟩
        have hnq := parseCSVLine_noquote header h0 hh0
        refine ⟨trim_idem h0, fun hq => hnq (mem_trim hq), ?_, hcomma _ hh⟩
        intro hnl
        exact parseCSVLine_chars (fun c => c ≠ '\n') header hheader_nl h0 hh0
          '\n' (mem_trim hnl) rfl)
      (by
        rw [hps]
        simp)
      (by
        intro vs hvs
        rcases List.mem_map.mp hvs with ⟨r, hr, rfl⟩
        exact ⟨(hrec_shape r hr).2.1, (hrec_shape r hr).2.2⟩)
      (by
        rcases hlast with h2 | h2
        · left
          simpa using h2
        · right
          intro vs hvs
          rw [List.getLast?_map, Option.map_eq_some'] at hvs
          rcases hvs with ⟨r, hr, rfl⟩
          exact h2 r hr)
    rw [hback] at happly
    exact happly

/-- Witness for C5 (amended): a table with a quoted, comma-containing
value survives the round trip. -/
theorem C5_witness :
    parseCSV (dataToCSV (toJsRows (parseCSV ("a,b\n1,2\nc d,".data)))) =
      parseCSV ("a,b\n1,2\nc d,".data) :=
  C5_roundtrip ("a,b\n1,2\nc d,".data) ("a,b".data) ["1,2".data, "c d,".data]
    (by decide) (by decide) (by decide) (by decide) (Or.inl (by decide))

/-- Claim C5, counterexample: a record whose key contains a comma
(arising from a quoted header field) does not round-trip, because
`dataToCSV` writes header names unquoted: the single record
`{"a,b": "1,0", "c": "2"}` re-parses as three columns `a`, `b`, `c`. -/
theorem C5_counterexample :
    parseCSV (quoteChar :: "a,b".data ++ [quoteChar] ++ ",c\n".data ++
        [quoteChar] ++ "1,0".data ++ [quoteChar] ++ ",2".data) =
      [[("a,b".data, "1,0".data), ("c".data, "2".data)]] ∧
    parseCSV (dataToCSV (toJsRows (parseCSV (quoteChar :: "a,b".data ++
        [quoteChar] ++ ",c\n".data ++ [quoteChar] ++ "1,0".data ++
        [quoteChar] ++ ",2".data)))) =
      [[("a".data, "1,0".data), ("b".data, "2".data), ("c".data, [])]] ∧
    parseCSV (dataToCSV (toJsRows (parseCSV (quoteChar :: "a,b".data ++
        [quoteChar] ++ ",c\n".data ++ [quoteChar] ++ "1,0".data ++
        [quoteChar] ++ ",2".data)))) ≠
      parseCSV (quoteChar :: "a,b".data ++ [quoteChar] ++ ",c\n".data ++
        [quoteChar] ++ "1,0".data ++ [quoteChar] ++ ",2".data) := by
  refine ⟨by decide, by decide, by decide⟩

/-- Claim C6, counterexample: on the record `{a: false}` the code
writes the empty cell (`String(row[h] || '')` blanks every falsy
value), while the claim's reading — only empty/undefined become the
empty string, other values are stringified — would write `false`. -/
theorem C6_counterexample :
    dataToCSV [[("a".data, JsonValue.bool false)]] = "a\n".data ∧
    dataToCSV_claimC6 [[("a".data, JsonValue.bool false)]] = "a\nfalse".data ∧
    dataToCSV [[("a".data, JsonValue.bool false)]] ≠
      dataToCSV_claimC6 [[("a".data, JsonValue.bool false)]] := by
  refine ⟨rfl, rfl, ?_⟩
  decide

/-- Claim C6 (amended): `dataToCSV` derives the headers from the first
record's keys and writes each value stringified — with every falsy
value (undefined, null, false, zero, the empty string), not merely
empty/undefined, becoming the empty string — wrapping any cell
containing a comma, double quote, or newline in double quotes with
internal double quotes doubled. -/
theorem C6_amended (rows : List CsvRow) :
    dataToCSV rows = dataToCSV_amendedC6 rows := by
  have cell : ∀ (row : CsvRow) (h : List Char),
      cellString row h = csvEscape (amendedCellC6 (assocFind row h)) := by
    intro row h
    unfold cellString amendedCellC6 jsOrEmptyStr
    cases assocFind row h with
    | none => rfl
    | some v =>
      by_cases hf : jsFalsy v = true
      · simp [hf, jsStringOf]
      · simp [hf]
  cases rows with
  | nil => rfl
  | cons r0 rest =>
    unfold dataToCSV dataToCSV_amendedC6
    simp only [cell]

/-- Claim C7 (confirmed): a well-formed `/api/predict` request naming a
model identifier absent from the registry is answered 404 before any
upstream call. -/
theorem C7_predict_unknown_404 (apiKey : Option (List Char))
    (registry : List (List Char × ModelInfo)) (id : List Char)
    (d : JsonValue) (hid : id ≠ []) (hd : jsFalsy d = false)
    (hmiss : assocFind registry id = none) :
    predictPhase apiKey registry (some id) (some d) =
      .reject 404 "Model not found. Please train a model first." ∧
    phaseCallsUpstream (predictPhase apiKey registry (some id) (some d)) = false := by
  have hne : id.isEmpty = false := by
    cases id with
    | nil => exact absurd rfl hid
    | cons c cs => rfl
  constructor
  · simp [predictPhase, strTruthy, jsTruthyOpt, hne, hd, hmiss]
  · simp [predictPhase, strTruthy, jsTruthyOpt, hne, hd, hmiss, phaseCallsUpstream]

/-- Witness for C7: an unknown identifier against the empty registry. -/
theorem C7_witness :
    predictPhase none [] (some ("model_1".data)) (some (.str "x".data)) =
      .reject 404 "Model not found. Please train a model first." :=
  (C7_predict_unknown_404 none [] ("model_1".data) (.str "x".data)
    (by decide) rfl rfl).1

/-- Claim C8 (confirmed): a well-formed `/api/train` request whose data
array has fewer than 10 rows is answered 400 before any upstream call;
with 10 or more rows (of records) the flow reaches the upstream call. -/
theorem C8_train_row_minimum (apiKey : Option (List Char))
    (rows : List JsonValue) (tc mt : List Char)
    (htc : tc ≠ []) (hmt : mt ≠ []) :
    (rows.length < 10 →
      trainPhase apiKey (some (.arr rows)) (some tc) (some mt) =
        .reject 400 "Need at least 10 rows of data for training" ∧
      phaseCallsUpstream
        (trainPhase apiKey (some (.arr rows)) (some tc) (some mt)) = false) ∧
    (∀ fields rest, rows = .obj fields :: rest → 10 ≤ rows.length →
      trainPhase apiKey (some (.arr rows)) (some tc) (some mt) =
        .upstream ((fields.map (fun p => p.1)).filter (fun c => ¬(c = tc))) ∧
      phaseCallsUpstream
        (trainPhase apiKey (some (.arr rows)) (some tc) (some mt)) = true) := by
  have htc' : tc.isEmpty = false := by
    cases tc with
    | nil => exact absurd rfl htc
    | cons c cs => rfl
  have hmt' : mt.isEmpty = false := by
    cases mt with
    | nil => exact absurd rfl hmt
    | cons c cs => rfl
  constructor
  · intro hlt
    constructor
    · simp [trainPhase, jsTruthyOpt, strTruthy, jsFalsy, htc', hmt', hlt]
    · simp [trainPhase, jsTruthyOpt, strTruthy, jsFalsy, htc', hmt', hlt,
        phaseCallsUpstream]
  · intro fields rest hrows hge
    subst hrows
    have hlen : (JsonValue.obj fields :: rest).length = rest.length + 1 := rfl
    have h9 : ¬(rest.length + 1 < 10) := by omega
    constructor
    · simp [trainPhase, jsTruthyOpt, strTruthy, jsFalsy, htc', hmt', h9,
        jsObjectKeys]
    · simp [trainPhase, jsTruthyOpt, strTruthy, jsFalsy, htc', hmt', h9,
        jsObjectKeys, phaseCallsUpstream]

/-- Witness for C8: 9 rows are rejected with 400, 10 rows reach the
upstream call. -/
theorem C8_witness :
    trainPhase none (some (.arr (List.replicate 9 (JsonValue.obj [("x".data, .num "1".data)]))))
      (some "y".data) (some "knn".data) =
      .reject 400 "Need at least 10 rows of data for training" ∧
    trainPhase none (some (.arr (List.replicate 10 (JsonValue.obj [("x".data, .num "1".data), ("y".data, .num "2".data)]))))
      (some "y".data) (some "knn".data) =
      .upstream ["x".data] := by
  constructor
  · exact ((C8_train_row_minimum none _ _ _ (by decide) (by decide)).1 (by decide)).1
  · have := ((C8_train_row_minimum none
      (List.replicate 10 (JsonValue.obj [("x".data, .num "1".data), ("y".data, .num "2".data)]))
      ("y".data) ("knn".data) (by decide) (by decide)).2
      [("x".data, .num "1".data), ("y".data, .num "2".data)]
      (List.replicate 9 (JsonValue.obj [("x".data, .num "1".data), ("y".data, .num "2".data)]))
      rfl (by simp)).1
    rw [this]
    rfl

/-- Claim C9, counterexample: `/api/train` performs no credential
check — with the credential left as the placeholder value, a valid
training request still reaches the upstream AI call instead of failing
fast. -/
theorem C9_counterexample :
    trainPhase (some ("your_gemini_api_key_here".data))
      (some (.arr (List.replicate 10 (JsonValue.obj [("x".data, .num "1".data), ("y".data, .num "2".data)]))))
      (some "y".data) (some "knn".data) = .upstream ["x".data] ∧
    phaseCallsUpstream
      (trainPhase (some ("your_gemini_api_key_here".data))
        (some (.arr (List.replicate 10 (JsonValue.obj [("x".data, .num "1".data), ("y".data, .num "2".data)]))))
        (some "y".data) (some "knn".data)) = true := by
  constructor <;> rfl

/-- Claim C9 (amended): only `/api/process` fails fast with a
descriptive 400 when the external-API credential is absent, empty, or
the placeholder; `/api/train` and `/api/predict` never consult the
credential, so their behaviour is identical for any credential value. -/
theorem C9_amended :
    (∀ (apiKey : Option (List Char)) d p,
      jsTruthyOpt d = true → jsTruthyOpt p = true →
      (apiKey = none ∨ apiKey = some [] ∨
        apiKey = some ("your_gemini_api_key_here".data)) →
      processPhase apiKey d p =
        .reject 400 "Please configure your Gemini API key in .env file" ∧
      phaseCallsUpstream (processPhase apiKey d p) = false) ∧
    (∀ (k1 k2 : Option (List Char)) data tc mt,
      trainPhase k1 data tc mt = trainPhase k2 data tc mt) ∧
    (∀ (k1 k2 : Option (List Char)) reg mid input,
      predictPhase k1 reg mid input = predictPhase k2 reg mid input) := by
  refine ⟨?_, ?_, ?_⟩
  · intro apiKey d p hd hp hkey
    have hbad : badKey apiKey = true := by
      rcases hkey with h | h | h
      · subst h; rfl
      · subst h; rfl
      · subst h; simp [badKey]
    exact ⟨by simp [processPhase, hd, hp, hbad],
      by simp [processPhase, hd, hp, hbad, phaseCallsUpstream]⟩
  · intro k1 k2 data tc mt
    rfl
  · intro k1 k2 reg mid input
    rfl

/-- Witness for C9 (amended): the placeholder credential makes
`/api/process` fail fast on a valid request. -/
theorem C9_witness :
    processPhase (some ("your_gemini_api_key_here".data))
      (some (.str "d".data)) (some (.str "p".data)) =
      .reject 400 "Please configure your Gemini API key in .env file" :=
  (C9_amended.1 (some ("your_gemini_api_key_here".data))
    (some (.str "d".data)) (some (.str "p".data)) rfl rfl
    (Or.inr (Or.inr rfl))).1

/-- Claim C10 (confirmed): a successful `/api/upload` response carries
the complete parsed dataset in `data`, and `preview` is its first 10
elements when the dataset is an array and the full value otherwise. -/
theorem C10_upload_preview (name content : List Char) :
    (uploadRoute (some (name, content))).data =
      some (parseFileContent content name).data ∧
    (uploadRoute (some (name, content))).preview =
      some (match (parseFileContent content name).data with
            | .arr xs => .arr (xs.take 10)
            | d => d) :=
  ⟨rfl, rfl⟩

end ADP
